import Mathlib

/-!
Verification of the mapfile structural-analysis core of the Mapfile-Preview
repository: the stack-based auto-formatter (`formatMapfile`), the balance
detector (`analyze` / endDetector), the heuristic syntax/context checker
(`syntaxisErrorDetector`), the extent synchronizer (`ExtentSyncService.sync`
together with `ProjectionService.projectExtent`), and the WFS-capability
classifier (`getWfsSupportMap` / `computeWfsSupportForLayer`).

Strings are modelled as `List Char`; the JavaScript sources' per-line regular
expressions are embedded as explicit character scans, with the regex quoted in
the corresponding doc comment.  External collaborators (the proj4 library) are
modelled as function parameters.
-/

namespace Mapfile

/-- Whitespace class used by the JS sources (regex `\s` and `String.trim`):
space, tab, newline, carriage return, vertical tab, form feed, and the
common Unicode space characters that can realistically appear in a mapfile. -/
def isWs (c : Char) : Bool :=
  c = ' ' || c = '\t' || c = '\n' || c = '\r' || c = '\x0b' || c = '\x0c' ||
  c = ' ' || c = '﻿'

/-- ASCII uppercase conversion, as `String.prototype.toUpperCase` acts on the
ASCII range (the only case-change relevant to the mapfile keywords). -/
def upChar (c : Char) : Char :=
  if 'a' ≤ c ∧ c ≤ 'z' then Char.ofNat (c.toNat - 32) else c

/-- Uppercase a modelled string (`s.toUpperCase()`). -/
def upper (s : List Char) : List Char := s.map upChar

/-- Lowercase conversion for the ASCII range (`String.prototype.toLowerCase`). -/
def lowChar (c : Char) : Char :=
  if 'A' ≤ c ∧ c ≤ 'Z' then Char.ofNat (c.toNat + 32) else c

/-- Lowercase a modelled string (`s.toLowerCase()`). -/
def lower (s : List Char) : List Char := s.map lowChar

/-- Leading-whitespace removal (`String.prototype.trimStart`). -/
def trimLeft (s : List Char) : List Char := s.dropWhile isWs

/-- Trailing-whitespace removal (`String.prototype.trimEnd`). -/
def trimRight (s : List Char) : List Char := (s.reverse.dropWhile isWs).reverse

/-- Both-ends whitespace removal (`String.prototype.trim`). -/
def jsTrim (s : List Char) : List Char := trimRight (trimLeft s)

/-- Split a text at each `'\n'` character, keeping empty pieces
(`String.prototype.split('\n')`). -/
def splitOnNl : List Char → List (List Char)
  | [] => [[]]
  | c :: rest =>
    if c = '\n' then [] :: splitOnNl rest
    else
      match splitOnNl rest with
      | [] => [[c]]
      | p :: ps => (c :: p) :: ps

/-- Join lines with `'\n'` (`lines.join('\n')`). -/
def joinNl : List (List Char) → List Char
  | [] => []
  | [l] => l
  | l :: ls => l ++ '\n' :: joinNl ls

/-- Drop a single trailing `'\r'` if present. -/
def stripCR (l : List Char) : List Char :=
  if l.getLast? = some '\r' then l.dropLast else l

/-- Apply `stripCR` to every piece except the last: combined with `splitOnNl`
this embeds `String.prototype.split(/\r?\n/)` (a `\r` is stripped only when it
immediately precedes the `\n` separator). -/
def fixCR : List (List Char) → List (List Char)
  | [] => []
  | [l] => [l]
  | l :: ls => stripCR l :: fixCR ls

/-- Embeds `text.split(/\r?\n/)`. -/
def splitLinesCRLF (l : List Char) : List (List Char) := fixCR (splitOnNl l)

/-- Embeds `text.replace(/\t/g, '  ')`: each tab becomes two spaces. -/
def replaceTabs : List Char → List Char
  | [] => []
  | c :: rest => (if c = '\t' then [' ', ' '] else [c]) ++ replaceTabs rest

/-- Embeds `text.replace(/\r\n?/g, '\n')` (equally `.replace(/\r\n/g,'\n').replace(/\r/g,'\n')`):
every `\r\n` pair and every lone `\r` becomes `\n`. -/
def normNl : List Char → List Char
  | [] => []
  | [c] => if c = '\r' then ['\n'] else [c]
  | c :: d :: rest =>
    if c = '\r' then
      if d = '\n' then '\n' :: normNl rest else '\n' :: normNl (d :: rest)
    else c :: normNl (d :: rest)

/-- Embeds `text.replace(/\r\n/g, '\n')`: only the pair `\r\n` is rewritten,
a lone `\r` is kept. -/
def normCrlf : List Char → List Char
  | [] => []
  | [c] => [c]
  | c :: d :: rest =>
    if c = '\r' then
      if d = '\n' then '\n' :: normCrlf rest else c :: normCrlf (d :: rest)
    else c :: normCrlf (d :: rest)

/-- ASCII letter test (regex class `[A-Za-z]`). -/
def isAsciiLetter (c : Char) : Bool :=
  ('A' ≤ c && c ≤ 'Z') || ('a' ≤ c && c ≤ 'z')

/-- ASCII digit test (regex class `[0-9]`). -/
def isAsciiDigit (c : Char) : Bool := '0' ≤ c && c ≤ '9'

/-- Word-constituent test (regex class `[A-Za-z0-9_]`). -/
def isWordChar (c : Char) : Bool :=
  isAsciiLetter c || isAsciiDigit c || c = '_'

/-! ## Formatter (`formatMapfile`, server/src/lib: stack-based auto-formatter) -/

/-- The formatter's known block openers (source constant `OPENERS`). -/
def fmtOPENERS : List (List Char) :=
  ["MAP".data, "LAYER".data, "CLASS".data, "STYLE".data, "LABEL".data,
   "PROJECTION".data, "METADATA".data, "OUTPUTFORMAT".data, "WEB".data,
   "FEATURE".data, "LEGEND".data, "SCALEBAR".data, "QUERYMAP".data,
   "CLUSTER".data, "GRID".data, "LEADER".data, "SYMBOL".data,
   "VALIDATION".data, "JOIN".data, "JOINS".data, "GEOTRANSFORM".data,
   "COMPOSITE".data, "PATTERN".data]

/-- Embeds the formatter's `openerLine` regex
`^(MAP|LAYER|...)\s*(?:#.*)?$` with flag `i`, applied to a trimmed line.
All alternatives are pure letter strings anchored at position 0, so the
matched group is exactly the line's leading ASCII-letter run; the match
succeeds iff that run is (case-insensitively) a known opener and the rest of
the line is whitespace optionally followed by a `#` comment (in which `.`
cannot cross a line terminator).  Returns the matched keyword text. -/
def matchOpenerLine (t : List Char) : Option (List Char) :=
  let w := t.takeWhile isAsciiLetter
  let r := (t.drop w.length).dropWhile isWs
  if upper w ∈ fmtOPENERS ∧
      (r = [] ∨ (r.head? = some '#' ∧ '\r' ∉ r.tail ∧ '\n' ∉ r.tail)) then
    some w
  else none

/-- Embeds the formatter's `endLine` regex
`^END(?:\s*(?:#\s*)?([A-Z0-9_]+))?\s*$` with flag `i`, applied to a trimmed
line.  Returns `some name?` on a match (`name?` is the optional trailing
block-name hint, e.g. `END # CLASS` or `END CLASS`). -/
def matchEndLine (t : List Char) : Option (Option (List Char)) :=
  if upper (t.take 3) = "END".data then
    let r := t.drop 3
    if r.dropWhile isWs = [] then some none
    else
      let r1 := r.dropWhile isWs
      let r2 := if r1.head? = some '#' then r1.tail.dropWhile isWs else r1
      let nm := r2.takeWhile isWordChar
      if nm ≠ [] ∧ (r2.drop nm.length).dropWhile isWs = [] then some (some nm)
      else none
  else none

/-- The formatter's indent unit: `' '.repeat(indentSize > 0 ? indentSize : 4)`. -/
def indentChars (indentSize : Nat) : List Char :=
  List.replicate (if 0 < indentSize then indentSize else 4) ' '

/-- String repetition `IND.repeat(n)`. -/
def rep (ind : List Char) : Nat → List Char
  | 0 => []
  | n + 1 => ind ++ rep ind n

/-- END-name realignment of the formatter: search the stack from the top for a
frame matching the name hint and truncate the stack down to (and keeping) that
frame.  The stack is modelled with its top at the head. -/
def fmtRealign (stack : List (List Char)) (nmU : List Char) : List (List Char) :=
  match stack.findIdx? (fun e => upper e = nmU) with
  | some j => stack.drop j
  | none => stack

/-- One line of the formatter's loop, applied to the trimmed line `t`:
returns the emitted line and the new stack (top at head). -/
def formatStepT (ind : List Char) (stack : List (List Char)) (t : List Char) :
    List Char × List (List Char) :=
  if t = [] then ([], stack)
  else if t.head? = some '#' then (rep ind stack.length ++ t, stack)
  else
    match matchEndLine t with
    | some nameOpt =>
      let stack1 :=
        match nameOpt with
        | some nm => fmtRealign stack (upper nm)
        | none => stack
      let stack2 := stack1.tail
      (rep ind stack2.length ++ t, stack2)
    | none =>
      let out := rep ind stack.length ++ t
      match matchOpenerLine t with
      | some w =>
        let rest := jsTrim (t.drop w.length)
        if rest = [] ∨ rest.head? = some '#' then (out, upper w :: stack)
        else (out, stack)
      | none => (out, stack)

/-- The formatter's main loop over the lines. -/
def formatLinesGo (ind : List Char) : List (List Char) → List (List Char) → List (List Char)
  | _, [] => []
  | stack, l :: ls =>
    let p := formatStepT ind stack (jsTrim l)
    p.1 :: formatLinesGo ind p.2 ls

/-- Embeds `formatMapfile(src, indentSize)`: tabs are normalized to two
spaces, the text is split at `/\r?\n/`, every line is re-emitted at the
current stack depth, and the result is joined with `'\n'`. -/
def formatMapfile (src : List Char) (indentSize : Nat) : List Char :=
  joinNl (formatLinesGo (indentChars indentSize) [] (splitLinesCRLF (replaceTabs src)))



/-! ## Whitespace and trimming lemmas -/

theorem dropWhile_head_not {p : Char → Bool} {l : List Char} {c : Char}
    (h : (l.dropWhile p).head? = some c) : p c = false := by
  have hh := List.head?_dropWhile_not p l
  rw [h] at hh
  exact hh

theorem dropWhile_ws_prefix (sp t : List Char) (h : ∀ c ∈ sp, isWs c = true) :
    (sp ++ t).dropWhile isWs = t.dropWhile isWs := by
  induction sp with
  | nil => rfl
  | cons a l ih =>
    have ha : isWs a = true := h a (by simp)
    simp only [List.cons_append, List.dropWhile_cons, ha, if_true]
    exact ih (fun c hc => h c (by simp [hc]))

theorem trimLeft_eq_self_of_head (l : List Char)
    (h : ∀ c, l.head? = some c → isWs c = false) : trimLeft l = l := by
  cases l with
  | nil => rfl
  | cons a t =>
    have := h a rfl
    simp [trimLeft, List.dropWhile_cons, this]

theorem head?_trimLeft_not {l : List Char} {c : Char}
    (h : (trimLeft l).head? = some c) : isWs c = false :=
  dropWhile_head_not h

theorem trimLeft_sublist (l : List Char) : (trimLeft l).Sublist l :=
  List.dropWhile_sublist _

theorem trimRight_sublist (l : List Char) : (trimRight l).Sublist l := by
  have h : (trimRight l).reverse.Sublist l.reverse := by
    simpa [trimRight] using @List.dropWhile_sublist Char l.reverse isWs
  exact List.reverse_sublist.mp h

theorem trimRight_eq_self_of_last (l : List Char)
    (h : ∀ c, l.getLast? = some c → isWs c = false) : trimRight l = l := by
  have hrev : ∀ c, l.reverse.head? = some c → isWs c = false := by
    intro c hc
    exact h c (by rw [List.getLast?_eq_head?_reverse]; exact hc)
  have hdw : l.reverse.dropWhile isWs = l.reverse := trimLeft_eq_self_of_head _ hrev
  simp [trimRight, hdw]

theorem getLast?_trimRight_not {l : List Char} {c : Char}
    (h : (trimRight l).getLast? = some c) : isWs c = false := by
  rw [List.getLast?_eq_head?_reverse] at h
  simp only [trimRight, List.reverse_reverse] at h
  exact dropWhile_head_not h

theorem trimRight_append_dropped (l : List Char) :
    trimRight l ++ (l.reverse.takeWhile isWs).reverse = l := by
  have h := List.takeWhile_append_dropWhile isWs l.reverse
  have h2 := congrArg List.reverse h
  rw [List.reverse_append, List.reverse_reverse] at h2
  simpa [trimRight] using h2

theorem head?_trimRight (l : List Char) (h : trimRight l ≠ []) :
    (trimRight l).head? = l.head? := by
  conv_rhs => rw [← trimRight_append_dropped l]
  cases hl : trimRight l with
  | nil => exact absurd hl h
  | cons a t => simp [hl]

theorem jsTrim_eq_self_parts {t : List Char} (h : jsTrim t = t) :
    trimLeft t = t ∧ trimRight t = t := by
  have h1 : (trimLeft t).Sublist t := trimLeft_sublist t
  have h2 : (trimRight (trimLeft t)).Sublist (trimLeft t) := trimRight_sublist _
  have hlen : t.length ≤ (trimLeft t).length := by
    have hle := h2.length_le
    rw [show trimRight (trimLeft t) = t from h] at hle
    exact hle
  have hTL : trimLeft t = t := h1.eq_of_length (le_antisymm h1.length_le hlen)
  refine ⟨hTL, ?_⟩
  have h' := h
  rw [jsTrim, hTL] at h'
  exact h'

theorem head?_jsTrim_not {l : List Char} {c : Char}
    (h : (jsTrim l).head? = some c) : isWs c = false := by
  have hne : trimRight (trimLeft l) ≠ [] := by
    intro hnil
    rw [jsTrim, hnil] at h
    exact Option.noConfusion h
  rw [jsTrim, head?_trimRight _ hne] at h
  exact head?_trimLeft_not h

theorem getLast?_jsTrim_not {l : List Char} {c : Char}
    (h : (jsTrim l).getLast? = some c) : isWs c = false :=
  getLast?_trimRight_not h

theorem jsTrim_idem (l : List Char) : jsTrim (jsTrim l) = jsTrim l := by
  have hTL : trimLeft (jsTrim l) = jsTrim l :=
    trimLeft_eq_self_of_head _ (fun c hc => head?_jsTrim_not hc)
  have hTR : trimRight (jsTrim l) = jsTrim l :=
    trimRight_eq_self_of_last _ (fun c hc => getLast?_jsTrim_not hc)
  rw [jsTrim, hTL, hTR]

theorem jsTrim_ws_append {sp t : List Char} (hsp : ∀ c ∈ sp, isWs c = true)
    (ht : jsTrim t = t) : jsTrim (sp ++ t) = t := by
  obtain ⟨hTL, hTR⟩ := jsTrim_eq_self_parts ht
  rw [jsTrim, trimLeft, dropWhile_ws_prefix sp t hsp]
  rw [show t.dropWhile isWs = t from hTL]
  exact hTR

theorem jsTrim_subset (l : List Char) : jsTrim l ⊆ l :=
  fun _ hc => (trimLeft_sublist l).subset ((trimRight_sublist _).subset hc)

/-! ## splitOnNl / joinNl / stripCR / replaceTabs lemmas -/

theorem splitOnNl_ne_nil (l : List Char) : splitOnNl l ≠ [] := by
  cases l with
  | nil => simp [splitOnNl]
  | cons a t =>
    by_cases h : a = '\n'
    · simp [splitOnNl, h]
    · simp only [splitOnNl, if_neg h]
      cases splitOnNl t <;> simp

theorem splitOnNl_cons_ne (a : Char) (t : List Char) (ha : a ≠ '\n')
    {p : List Char} {ps : List (List Char)} (h : splitOnNl t = p :: ps) :
    splitOnNl (a :: t) = (a :: p) :: ps := by
  simp only [splitOnNl, if_neg ha, h]

theorem splitOnNl_no_nl (l : List Char) : ∀ p ∈ splitOnNl l, '\n' ∉ p := by
  induction l with
  | nil =>
    intro p hp
    simp only [splitOnNl, List.mem_singleton] at hp
    simp [hp]
  | cons a t ih =>
    intro p hp
    by_cases h : a = '\n'
    · simp only [splitOnNl, if_pos h] at hp
      rcases List.mem_cons.mp hp with hp | hp
      · simp [hp]
      · exact ih p hp
    · cases hs : splitOnNl t with
      | nil => exact absurd hs (splitOnNl_ne_nil t)
      | cons q qs =>
        rw [splitOnNl_cons_ne a t h hs] at hp
        rcases List.mem_cons.mp hp with hp | hp
        · subst hp
          intro hmem
          rcases List.mem_cons.mp hmem with hh | hh
          · exact h hh.symm
          · exact ih q (by rw [hs]; exact List.mem_cons_self q qs) hh
        · exact ih p (by rw [hs]; exact List.mem_cons_of_mem q hp)

theorem splitOnNl_subset (l : List Char) : ∀ p ∈ splitOnNl l, ∀ c ∈ p, c ∈ l := by
  induction l with
  | nil =>
    intro p hp c hc
    simp only [splitOnNl, List.mem_singleton] at hp
    subst hp
    simp at hc
  | cons a t ih =>
    intro p hp c hc
    by_cases h : a = '\n'
    · simp only [splitOnNl, if_pos h] at hp
      rcases List.mem_cons.mp hp with hp | hp
      · subst hp; simp at hc
      · exact List.mem_cons_of_mem a (ih p hp c hc)
    · cases hs : splitOnNl t with
      | nil => exact absurd hs (splitOnNl_ne_nil t)
      | cons q qs =>
        rw [splitOnNl_cons_ne a t h hs] at hp
        rcases List.mem_cons.mp hp with hp | hp
        · subst hp
          rcases List.mem_cons.mp hc with hh | hh
          · simp [hh]
          · exact List.mem_cons_of_mem a
              (ih q (by rw [hs]; exact List.mem_cons_self q qs) c hh)
        · exact List.mem_cons_of_mem a
            (ih p (by rw [hs]; exact List.mem_cons_of_mem q hp) c hc)

theorem splitOnNl_of_no_nl (l : List Char) (h : '\n' ∉ l) : splitOnNl l = [l] := by
  induction l with
  | nil => rfl
  | cons a t ih =>
    have ha : a ≠ '\n' := fun hh => h (by simp [hh])
    have ht : '\n' ∉ t := fun hh => h (by simp [hh])
    exact splitOnNl_cons_ne a t ha (ih ht)

theorem splitOnNl_append_nl (l rest : List Char) (h : '\n' ∉ l) :
    splitOnNl (l ++ '\n' :: rest) = l :: splitOnNl rest := by
  induction l with
  | nil => simp [splitOnNl]
  | cons a t ih =>
    have ha : a ≠ '\n' := fun hh => h (by simp [hh])
    have ht : '\n' ∉ t := fun hh => h (by simp [hh])
    rw [List.cons_append]
    exact splitOnNl_cons_ne a _ ha (ih ht)

theorem splitOnNl_joinNl (ls : List (List Char)) (hne : ls ≠ [])
    (h : ∀ l ∈ ls, '\n' ∉ l) : splitOnNl (joinNl ls) = ls := by
  induction ls with
  | nil => exact absurd rfl hne
  | cons l ls ih =>
    cases ls with
    | nil => exact splitOnNl_of_no_nl l (h l (by simp))
    | cons l2 ls2 =>
      show splitOnNl (l ++ '\n' :: joinNl (l2 :: ls2)) = _
      rw [splitOnNl_append_nl _ _ (h l (by simp))]
      rw [ih (by simp) (fun x hx => h x (List.mem_cons_of_mem l hx))]

theorem stripCR_eq_self (l : List Char)
    (h : ∀ c, l.getLast? = some c → c ≠ '\r') : stripCR l = l := by
  unfold stripCR
  rw [if_neg]
  intro hl
  exact h '\r' hl rfl

theorem stripCR_subset (l : List Char) : stripCR l ⊆ l := by
  unfold stripCR
  by_cases hl : l.getLast? = some '\r'
  · rw [if_pos hl]; exact List.dropLast_subset l
  · rw [if_neg hl]; exact fun x hx => hx

theorem fixCR_eq_self (ls : List (List Char)) (h : ∀ l ∈ ls, stripCR l = l) :
    fixCR ls = ls := by
  induction ls with
  | nil => rfl
  | cons l ls ih =>
    cases ls with
    | nil => rfl
    | cons l2 ls2 =>
      show stripCR l :: fixCR (l2 :: ls2) = _
      rw [h l (by simp), ih (fun x hx => h x (List.mem_cons_of_mem l hx))]

theorem fixCR_ne_nil (ls : List (List Char)) (h : ls ≠ []) : fixCR ls ≠ [] := by
  cases ls with
  | nil => exact absurd rfl h
  | cons l ls => cases ls <;> simp [fixCR]

theorem fixCR_subset (ls : List (List Char)) :
    ∀ p ∈ fixCR ls, ∀ c ∈ p, ∃ q ∈ ls, c ∈ q := by
  induction ls with
  | nil => intro p hp; simp [fixCR] at hp
  | cons l ls ih =>
    intro p hp c hc
    cases ls with
    | nil =>
      simp only [fixCR, List.mem_singleton] at hp
      exact ⟨l, by simp, by rw [← hp]; exact hc⟩
    | cons l2 ls2 =>
      rcases List.mem_cons.mp hp with hp | hp
      · exact ⟨l, by simp, stripCR_subset l (by rw [← hp]; exact hc)⟩
      · obtain ⟨q, hq, hcq⟩ := ih p hp c hc
        exact ⟨q, List.mem_cons_of_mem l hq, hcq⟩

theorem replaceTabs_eq_self (l : List Char) (h : '\t' ∉ l) : replaceTabs l = l := by
  induction l with
  | nil => rfl
  | cons a t ih =>
    have ha : a ≠ '\t' := fun hh => h (by simp [hh])
    have ht : '\t' ∉ t := fun hh => h (by simp [hh])
    simp [replaceTabs, ha, ih ht]

theorem replaceTabs_no_tab (l : List Char) : '\t' ∉ replaceTabs l := by
  induction l with
  | nil => simp [replaceTabs]
  | cons a t ih =>
    by_cases ha : a = '\t'
    · simp only [replaceTabs, if_pos ha]
      intro hmem
      rcases List.mem_append.mp hmem with hm | hm
      · simp at hm
      · exact ih hm
    · simp only [replaceTabs, if_neg ha]
      intro hmem
      rcases List.mem_append.mp hmem with hm | hm
      · simp at hm; exact ha hm.symm
      · exact ih hm

theorem joinNl_mem (ls : List (List Char)) (c : Char) (h : c ∈ joinNl ls) :
    c = '\n' ∨ ∃ l ∈ ls, c ∈ l := by
  induction ls with
  | nil => simp [joinNl] at h
  | cons l ls ih =>
    cases ls with
    | nil => exact Or.inr ⟨l, by simp, h⟩
    | cons l2 ls2 =>
      rw [show joinNl (l :: l2 :: ls2) = l ++ '\n' :: joinNl (l2 :: ls2) from rfl] at h
      rcases List.mem_append.mp h with h | h
      · exact Or.inr ⟨l, by simp, h⟩
      · rcases List.mem_cons.mp h with h | h
        · exact Or.inl h
        · rcases ih h with h | ⟨q, hq, hcq⟩
          · exact Or.inl h
          · exact Or.inr ⟨q, List.mem_cons_of_mem l hq, hcq⟩

/-! ## Formatter lemmas -/

theorem rep_mem_space {ind : List Char} (hind : ∀ c ∈ ind, c = ' ') :
    ∀ k, ∀ c ∈ rep ind k, c = ' ' := by
  intro k
  induction k with
  | zero => intro c hc; simp [rep] at hc
  | succ n ih =>
    intro c hc
    rcases List.mem_append.mp hc with hc | hc
    · exact hind c hc
    · exact ih c hc

theorem formatStepT_fst_eq (ind s t) (ht : t ≠ []) :
    ∃ k, (formatStepT ind s t).1 = rep ind k ++ t := by
  unfold formatStepT
  rw [if_neg ht]
  by_cases hc : t.head? = some '#'
  · rw [if_pos hc]
    exact ⟨s.length, rfl⟩
  · rw [if_neg hc]
    cases hE : matchEndLine t with
    | some nameOpt => exact ⟨_, rfl⟩
    | none =>
      cases hO : matchOpenerLine t with
      | some w =>
        dsimp only
        split_ifs with hr
        · exact ⟨s.length, rfl⟩
        · exact ⟨s.length, rfl⟩
      | none => exact ⟨s.length, rfl⟩

theorem formatStepT_fst_nil (ind s) : (formatStepT ind s []).1 = [] := by
  unfold formatStepT
  rw [if_pos rfl]

theorem formatStepT_fst_trim (ind s t) (hind : ∀ c ∈ ind, c = ' ')
    (ht : jsTrim t = t) : jsTrim (formatStepT ind s t).1 = t := by
  by_cases h0 : t = []
  · subst h0
    rw [formatStepT_fst_nil]
    rfl
  · obtain ⟨k, hk⟩ := formatStepT_fst_eq ind s t h0
    rw [hk]
    refine jsTrim_ws_append ?_ ht
    intro c hc
    rw [rep_mem_space hind k c hc]
    rfl

theorem formatLinesGo_map_trim (ind : List Char) (hind : ∀ c ∈ ind, c = ' ') :
    ∀ ls s, (formatLinesGo ind s ls).map jsTrim = ls.map jsTrim := by
  intro ls
  induction ls with
  | nil => intro s; rfl
  | cons l ls ih =>
    intro s
    show jsTrim (formatStepT ind s (jsTrim l)).1 :: _ = jsTrim l :: _
    rw [formatStepT_fst_trim ind s (jsTrim l) hind (jsTrim_idem l)]
    rw [ih]

theorem formatLinesGo_idem (ind : List Char) (hind : ∀ c ∈ ind, c = ' ') :
    ∀ ls s, formatLinesGo ind s (formatLinesGo ind s ls) = formatLinesGo ind s ls := by
  intro ls
  induction ls with
  | nil => intro s; rfl
  | cons l ls ih =>
    intro s
    have hq : jsTrim (formatStepT ind s (jsTrim l)).1 = jsTrim l :=
      formatStepT_fst_trim ind s (jsTrim l) hind (jsTrim_idem l)
    show (formatStepT ind s (jsTrim (formatStepT ind s (jsTrim l)).1)).1 :: _ = _
    rw [hq]
    congr 1
    show formatLinesGo ind (formatStepT ind s (jsTrim l)).2
        (formatLinesGo ind (formatStepT ind s (jsTrim l)).2 ls) = _
    exact ih _

theorem formatLinesGo_out_props (ind : List Char) (hind : ∀ c ∈ ind, c = ' ') :
    ∀ ls s, (∀ l ∈ ls, '\n' ∉ l ∧ '\t' ∉ l) →
      ∀ o ∈ formatLinesGo ind s ls, '\n' ∉ o ∧ '\t' ∉ o ∧ stripCR o = o := by
  intro ls
  induction ls with
  | nil => intro s _ o ho; simp [formatLinesGo] at ho
  | cons l ls ih =>
    intro s hls o ho
    rcases List.mem_cons.mp ho with ho | ho
    · subst ho
      by_cases h0 : jsTrim l = []
      · rw [h0, formatStepT_fst_nil]
        refine ⟨by simp, by simp, ?_⟩
        simp [stripCR]
      · obtain ⟨k, hk⟩ := formatStepT_fst_eq ind s (jsTrim l) h0
        rw [hk]
        have hsub : jsTrim l ⊆ l := jsTrim_subset l
        have hl := hls l (List.mem_cons_self l ls)
        refine ⟨?_, ?_, ?_⟩
        · intro hmem
          rcases List.mem_append.mp hmem with hm | hm
          · have := rep_mem_space hind k _ hm
            exact absurd this (by decide)
          · exact hl.1 (hsub hm)
        · intro hmem
          rcases List.mem_append.mp hmem with hm | hm
          · have := rep_mem_space hind k _ hm
            exact absurd this (by decide)
          · exact hl.2 (hsub hm)
        · refine stripCR_eq_self _ ?_
          intro c hc
          rw [List.getLast?_append] at hc
          cases hgl : (jsTrim l).getLast? with
          | none =>
            rw [List.getLast?_eq_none_iff] at hgl
            exact absurd hgl h0
          | some d =>
            rw [hgl] at hc
            simp only [Option.or_some] at hc
            have hd : isWs d = false := getLast?_jsTrim_not (by rw [jsTrim_idem]; exact hgl)
            intro hcr
            rw [Option.some_inj] at hc
            rw [← hc] at hcr
            subst hcr
            exact absurd hd (by decide)
    · exact ih _ (fun x hx => hls x (List.mem_cons_of_mem l hx)) o ho

theorem formatLinesGo_ne_nil (ind s) {ls : List (List Char)} (h : ls ≠ []) :
    formatLinesGo ind s ls ≠ [] := by
  cases ls with
  | nil => exact absurd rfl h
  | cons l ls => simp [formatLinesGo]

theorem indentChars_space (n : Nat) : ∀ c ∈ indentChars n, c = ' ' := by
  intro c hc
  exact List.eq_of_mem_replicate hc

theorem splitLinesCRLF_joinNl (ls : List (List Char)) (hne : ls ≠ [])
    (h1 : ∀ l ∈ ls, '\n' ∉ l) (h2 : ∀ l ∈ ls, stripCR l = l) :
    splitLinesCRLF (joinNl ls) = ls := by
  unfold splitLinesCRLF
  rw [splitOnNl_joinNl ls hne h1]
  exact fixCR_eq_self ls h2

/-- C1: `formatMapfile` is idempotent — formatting already-formatted text
(with the same indent width) reproduces it exactly, for every input text x
and every indent width. -/
theorem formatMapfile_idempotent (src : List Char) (indentSize : Nat) :
    formatMapfile (formatMapfile src indentSize) indentSize =
      formatMapfile src indentSize := by
  have hind : ∀ c ∈ indentChars indentSize, c = ' ' := indentChars_space indentSize
  have hL0props : ∀ l ∈ splitLinesCRLF (replaceTabs src), '\n' ∉ l ∧ '\t' ∉ l := by
    intro l hl
    unfold splitLinesCRLF at hl
    constructor
    · intro hnl
      obtain ⟨q, hq, hcq⟩ := fixCR_subset _ l hl '\n' hnl
      exact splitOnNl_no_nl _ q hq hcq
    · intro htab
      obtain ⟨q, hq, hcq⟩ := fixCR_subset _ l hl '\t' htab
      exact replaceTabs_no_tab src (splitOnNl_subset _ q hq '\t' hcq)
  have hL0ne : splitLinesCRLF (replaceTabs src) ≠ [] :=
    fixCR_ne_nil _ (splitOnNl_ne_nil _)
  have hOne : formatLinesGo (indentChars indentSize) [] (splitLinesCRLF (replaceTabs src)) ≠ [] :=
    formatLinesGo_ne_nil _ _ hL0ne
  have hOprops := formatLinesGo_out_props (indentChars indentSize) hind
    (splitLinesCRLF (replaceTabs src)) [] hL0props
  show formatMapfile
      (joinNl (formatLinesGo (indentChars indentSize) [] (splitLinesCRLF (replaceTabs src))))
      indentSize = _
  unfold formatMapfile
  have hnotab : '\t' ∉ joinNl (formatLinesGo (indentChars indentSize) []
      (splitLinesCRLF (replaceTabs src))) := by
    intro hmem
    rcases joinNl_mem _ '\t' hmem with h | ⟨l, hl, hcl⟩
    · exact absurd h (by decide)
    · exact (hOprops l hl).2.1 hcl
  rw [replaceTabs_eq_self _ hnotab]
  rw [splitLinesCRLF_joinNl _ hOne (fun l hl => (hOprops l hl).1)
    (fun l hl => (hOprops l hl).2.2)]
  rw [formatLinesGo_idem (indentChars indentSize) hind]

/-- C9 (amended): the formatter changes only whitespace.  Beyond the
normalizations it performs on whitespace itself (tabs become two spaces,
trailing whitespace is trimmed, leading whitespace is replaced by the
depth-based indent, line endings become `'\n'`), each line's content is
unchanged: the sequence of trimmed lines of the output equals the sequence of
trimmed lines of the tab-normalized input. -/
theorem formatMapfile_preserves_trimmed_lines (src : List Char) (indentSize : Nat) :
    (splitLinesCRLF (formatMapfile src indentSize)).map jsTrim =
      (splitLinesCRLF (replaceTabs src)).map jsTrim := by
  have hind : ∀ c ∈ indentChars indentSize, c = ' ' := indentChars_space indentSize
  have hL0props : ∀ l ∈ splitLinesCRLF (replaceTabs src), '\n' ∉ l ∧ '\t' ∉ l := by
    intro l hl
    unfold splitLinesCRLF at hl
    constructor
    · intro hnl
      obtain ⟨q, hq, hcq⟩ := fixCR_subset _ l hl '\n' hnl
      exact splitOnNl_no_nl _ q hq hcq
    · intro htab
      obtain ⟨q, hq, hcq⟩ := fixCR_subset _ l hl '\t' htab
      exact replaceTabs_no_tab src (splitOnNl_subset _ q hq '\t' hcq)
  have hL0ne : splitLinesCRLF (replaceTabs src) ≠ [] :=
    fixCR_ne_nil _ (splitOnNl_ne_nil _)
  have hOne : formatLinesGo (indentChars indentSize) [] (splitLinesCRLF (replaceTabs src)) ≠ [] :=
    formatLinesGo_ne_nil _ _ hL0ne
  have hOprops := formatLinesGo_out_props (indentChars indentSize) hind
    (splitLinesCRLF (replaceTabs src)) [] hL0props
  show (splitLinesCRLF
      (joinNl (formatLinesGo (indentChars indentSize) [] (splitLinesCRLF (replaceTabs src))))).map jsTrim = _
  rw [splitLinesCRLF_joinNl _ hOne (fun l hl => (hOprops l hl).1)
    (fun l hl => (hOprops l hl).2.2)]
  exact formatLinesGo_map_trim (indentChars indentSize) hind _ []

/-- C9 is false as stated: on the input `"A\tB "` the formatter rewrites the
interior tab to two spaces and removes the trailing space, although the input
line has no leading whitespace at all — so content other than leading
whitespace is altered. -/
theorem formatMapfile_alters_nonleading_content :
    formatMapfile (("A\tB ").data) 4 = ("A  B").data ∧
    trimLeft (("A\tB ").data) = ("A\tB ").data ∧
    ("A  B").data ≠ ("A\tB ").data := by
  exact ⟨by decide, by decide, by decide⟩

/-! ## Shared tokenizer (`tokenizeLine`; two identical copies live in the
syntax checker and in the balance detector sources, modelled once) -/

/-- A token produced by `tokenizeLine`: a word `[A-Za-z_][A-Za-z0-9_]*` or a
quoted string (with its quote character and whether it was closed).  Columns
are 1-based. -/
inductive Tok where
  | word (text : List Char) (col : Nat)
  | str (value : List Char) (col : Nat) (quote : Char) (closed : Bool)
deriving DecidableEq, Repr

/-- Carried-over lexer state (`{ inBlockComment, inQuote, quoteChar }`); the
JS empty-string `quoteChar` is modelled as `none`. -/
structure LexState where
  inBlockComment : Bool
  inQuote : Bool
  quoteChar : Option Char
deriving DecidableEq, Repr

/-- The initial lexer state. -/
def cleanLex : LexState := ⟨false, false, none⟩

/-- Index of the first occurrence of the substring `*/` (`line.indexOf('*/', i)`). -/
def findStarSlash : List Char → Option Nat
  | '*' :: '/' :: _ => some 0
  | _ :: rest => (findStarSlash rest).map (· + 1)
  | [] => none

/-- Scan for the closing quote of an already-open multi-line quote, honoring
backslash escapes; returns the number of characters consumed through the
closing quote (the in-quote branch of `tokenizeLine` collects no value). -/
def scanCloseQuote (quote : Char) : List Char → Option Nat
  | [] => none
  | '\\' :: [] => none
  | '\\' :: _ :: rest => (scanCloseQuote quote rest).map (· + 2)
  | c :: rest =>
    if c = quote then some 1 else (scanCloseQuote quote rest).map (· + 1)

/-- Scan a quoted string after its opening quote, honoring backslash escapes:
returns the collected value, the number of characters consumed, and whether
the closing quote was found on the line. -/
def scanQuoted (quote : Char) : List Char → List Char × Nat × Bool
  | [] => ([], 0, false)
  | '\\' :: [] => ([], 1, false)
  | '\\' :: d :: rest =>
    let q := scanQuoted quote rest
    (d :: q.1, q.2.1 + 2, q.2.2)
  | c :: rest =>
    if c = quote then ([], 1, true)
    else
      let q := scanQuoted quote rest
      (c :: q.1, q.2.1 + 1, q.2.2)

/-- Main loop of `tokenizeLine`, walking the remaining characters `cs` whose
head sits at 0-based position `pos` of the line.  `fuel` only bounds the
recursion; `tokenizeLine` supplies enough fuel for the whole line, and every
iteration consumes at least one character. -/
def tokLoop (amq : Bool) : Nat → List Char → Nat → LexState → List Tok →
    List (Nat × Char) → List Tok × LexState × List (Nat × Char)
  | 0, _, _, st, toks, unc => (toks, st, unc)
  | Nat.succ fuel, cs, pos, st, toks, unc =>
    if st.inBlockComment then
      match findStarSlash cs with
      | none => (toks, st, unc)
      | some k =>
        tokLoop amq fuel (cs.drop (k + 2)) (pos + k + 2)
          ⟨false, st.inQuote, st.quoteChar⟩ toks unc
    else if st.inQuote then
      match scanCloseQuote (st.quoteChar.getD '"') cs with
      | none => (toks, st, unc)
      | some k =>
        tokLoop amq fuel (cs.drop k) (pos + k) ⟨st.inBlockComment, false, none⟩ toks unc
    else
      match cs with
      | [] => (toks, st, unc)
      | c :: rest =>
        if c = '#' then (toks, st, unc)
        else if c = '/' ∧ rest.head? = some '/' then (toks, st, unc)
        else if c = '/' ∧ rest.head? = some '*' then
          tokLoop amq fuel rest.tail (pos + 2) ⟨true, st.inQuote, st.quoteChar⟩ toks unc
        else if isWs c then tokLoop amq fuel rest (pos + 1) st toks unc
        else if c = '"' ∨ c = '\'' then
          let q := scanQuoted c rest
          let toks' := toks ++ [Tok.str q.1 (pos + 1) c q.2.2]
          if q.2.2 then tokLoop amq fuel (rest.drop q.2.1) (pos + 1 + q.2.1) st toks' unc
          else
            let unc' := unc ++ [(pos + 1, c)]
            if amq then (toks', ⟨st.inBlockComment, true, some c⟩, unc')
            else (toks', st, unc')
        else if isAsciiLetter c || c = '_' then
          let w := (c :: rest).takeWhile isWordChar
          tokLoop amq fuel ((c :: rest).drop w.length) (pos + w.length) st
            (toks ++ [Tok.word w (pos + 1)]) unc
        else tokLoop amq fuel rest (pos + 1) st toks unc

/-- Embeds `tokenizeLine(line, state, options)`: tokens, the updated carry-over
state, and the unclosed-quote reports of the line.  `amq` is
`options.allowMultilineQuotes` (every caller in the repository leaves it at
its default `false`). -/
def tokenizeLine (amq : Bool) (line : List Char) (st : LexState) :
    List Tok × LexState × List (Nat × Char) :=
  tokLoop amq (line.length + 1) line 0 st [] []

/-! ## Balance detector (`analyze` / `endDetector`, endDetector.js) -/

/-- A stack frame / missing-END report of the balance detector. -/
structure Frame where
  type : List Char
  line : Nat
  col : Nat
deriving DecidableEq, Repr

/-- An extra-END report of the balance detector. -/
structure ExtraEnd where
  line : Nat
  col : Nat
  excerpt : List Char
deriving DecidableEq, Repr

/-- Source constant `DEFAULT_BLOCK_OPENERS`. -/
def DEFAULT_BLOCK_OPENERS : List (List Char) :=
  ["MAP".data, "LAYER".data, "CLASS".data, "STYLE".data, "LABEL".data,
   "LEADER".data, "WEB".data, "METADATA".data, "PROJECTION".data,
   "OUTPUTFORMAT".data, "SYMBOL".data, "QUERYMAP".data, "REFERENCE".data,
   "SCALEBAR".data, "LEGEND".data, "VALIDATION".data, "JOIN".data,
   "CLUSTER".data, "COMPOSITE".data, "FEATURE".data, "GRID".data,
   "IDENTIFY".data, "PATTERN".data, "POINTS".data]

/-- Embeds `isAllCapsIdentifier` (regex `^[A-Z_][A-Z0-9_]*$`). -/
def isAllCapsIdentifier : List Char → Bool
  | [] => false
  | c :: rest =>
    (('A' ≤ c && c ≤ 'Z') || c = '_') &&
      rest.all (fun d => ('A' ≤ d && d ≤ 'Z') || isAsciiDigit d || d = '_')

/-- Word-token projection (`tokens.filter(t => t.type === 'word')`). -/
def tokWord? : Tok → Option (List Char × Nat)
  | Tok.word t c => some (t, c)
  | _ => none

/-- State of the balance detector's scan: stack (top at head), collected
extra-END reports, and the lexer carry-over state. -/
structure AnState where
  stack : List Frame
  extraEnds : List ExtraEnd
  lex : LexState
deriving DecidableEq, Repr

/-- The END-token loop of `analyze`: walk the word tokens of the line and,
for each `END`, pop the stack or record an extra END.  An inline `END` (not
the first word token) is honored only when the line itself opened a block
(`options.allowInlineEndWithoutOpener` is left at its default `false`). -/
def anEnds (lineNo : Nat) (excerpt : List Char) (opened : Bool) :
    Nat → List (List Char × Nat) → List Frame → List ExtraEnd →
    List Frame × List ExtraEnd
  | _, [], stack, extra => (stack, extra)
  | tIdx, w :: ws, stack, extra =>
    if upper w.1 = ("END").data ∧ (tIdx = 0 ∨ opened = true) then
      match stack with
      | [] => anEnds lineNo excerpt opened (tIdx + 1) ws []
          (extra ++ [⟨lineNo, w.2, excerpt⟩])
      | _ :: s' => anEnds lineNo excerpt opened (tIdx + 1) ws s' extra
    else anEnds lineNo excerpt opened (tIdx + 1) ws stack extra

/-- One line of `analyze`'s scan (default options: heuristic openers enabled,
no extra openers, no multi-line quotes, no inline END without opener). -/
def anStep (st : AnState) (lineNo : Nat) (line : List Char) : AnState :=
  let out := tokenizeLine false line st.lex
  let words := out.1.filterMap tokWord?
  match words with
  | [] => { st with lex := out.2.1 }
  | w0 :: _ =>
    let first := upper w0.1
    let isKnown := decide (first ∈ DEFAULT_BLOCK_OPENERS)
    let isHeur := decide (words.length = 1) && isAllCapsIdentifier first &&
      decide (3 ≤ first.length) && decide (first ≠ ("END").data)
    let opened := isKnown || isHeur
    let stack1 := if opened then ⟨first, lineNo, w0.2⟩ :: st.stack else st.stack
    let excerpt := (jsTrim line).take 200
    let res := anEnds lineNo excerpt opened 0 words stack1 st.extraEnds
    ⟨res.1, res.2, out.2.1⟩

/-- The scan loop of `analyze` over the lines, with 1-based line numbers. -/
def anRun : AnState → Nat → List (List Char) → AnState
  | st, _, [] => st
  | st, n, l :: ls => anRun (anStep st n l) (n + 1) ls

/-- Structured result of `analyze`. -/
structure AnalyzeResult where
  ok : Bool
  extraEnds : List ExtraEnd
  missingEnds : List Frame
  message : List Char
deriving DecidableEq, Repr

/-- Decimal rendering of a number used in the report messages. -/
def natChars (n : Nat) : List Char := Nat.toDigits 10 n

/-- One extra-END message line:
`- Παραπανίσιο END στη γραμμή L, στήλη C.  (γραμμή: "...")`. -/
def anExtraLine (e : ExtraEnd) : List Char :=
  ("- Παραπανίσιο END στη γραμμή ").data ++ natChars e.line ++
    (", στήλη ").data ++ natChars e.col ++ (".").data ++
    (if e.excerpt ≠ [] then
      ("  (γραμμή: \"").data ++ e.excerpt ++ ("\")").data
    else [])

/-- One missing-END message line. -/
def anMissingLine (b : Frame) : List Char :=
  ("- Λείπει END για το block ").data ++ b.type ++
    (" (άνοιξε στη γραμμή ").data ++ natChars b.line ++
    (", στήλη ").data ++ natChars b.col ++ (").").data

/-- `TYPE@line:col` rendering for the nesting trailer. -/
def anNestItem (b : Frame) : List Char :=
  b.type ++ ("@").data ++ natChars b.line ++ (":").data ++ natChars b.col

/-- Join message parts with a separator (`parts.join(sep)`). -/
def joinSep (sep : List Char) : List (List Char) → List Char
  | [] => []
  | [l] => l
  | l :: ls => l ++ sep ++ joinSep sep ls

/-- The human-readable message of `analyze` (Greek, as in the source). -/
def anMessage (ok : Bool) (extraEnds : List ExtraEnd) (missingEnds : List Frame) :
    List Char :=
  let head := ("endDetector: Έλεγχος blocks/END").data
  if ok then
    joinNl [head,
      ("✅ Δεν εντοπίστηκε πρόβλημα: δεν υπάρχει παραπανίσιο END και δεν λείπει END.").data]
  else
    joinNl ([head,
      ("❌ Εντοπίστηκαν: ").data ++ natChars extraEnds.length ++
        (" παραπανίσια END και ").data ++ natChars missingEnds.length ++
        (" block(s) χωρίς END.").data] ++
      (if extraEnds ≠ [] then
        ("\nΠαραπανίσια END:").data :: extraEnds.map anExtraLine
      else []) ++
      (if missingEnds ≠ [] then
        (("\nΛείπουν END (ανοιχτά blocks στο τέλος του αρχείου):").data ::
          (missingEnds.reverse.map anMissingLine)) ++
          [("\nNesting (από έξω προς τα μέσα): ").data ++
            joinSep (" > ").data (missingEnds.map anNestItem)]
      else []))

/-- Embeds `analyze(mapfileText)` of the balance detector at its default
options: newline-normalize, scan every line, then report the remaining stack
as `missingEnds` (a copy of the stack, bottom/outermost first) and the
empty-stack pops as `extraEnds`; `ok` iff both are empty. -/
def analyze (text : List Char) : AnalyzeResult :=
  let lines := splitOnNl (normNl text)
  let fin := anRun ⟨[], [], cleanLex⟩ 1 lines
  let missingEnds := fin.stack.reverse
  let ok := fin.extraEnds.isEmpty && missingEnds.isEmpty
  ⟨ok, fin.extraEnds, missingEnds, anMessage ok fin.extraEnds missingEnds⟩

/-! ## Balance-detector lemmas (synthetic unbalanced texts) -/

/-- Synthetic text: `M` standalone `END` lines followed by the given opener
lines, joined with `'\n'`. -/
def synthText (M : Nat) (ks : List (List Char)) : List Char :=
  joinNl (List.replicate M (("END").data) ++ ks)

/-- The frames that standalone opener lines starting at line `n` leave on the
stack, outermost first. -/
def framesOf (n : Nat) : List (List Char) → List Frame
  | [] => []
  | k :: ks => ⟨k, n, 1⟩ :: framesOf (n + 1) ks

/-- The extra-END entries produced by `M` standalone `END` lines starting at
line `n` against an empty stack. -/
def endEntries (n : Nat) : Nat → List ExtraEnd
  | 0 => []
  | M + 1 => ⟨n, 1, ("END").data⟩ :: endEntries (n + 1) M

theorem framesOf_length (n : Nat) (ks : List (List Char)) :
    (framesOf n ks).length = ks.length := by
  induction ks generalizing n with
  | nil => rfl
  | cons k ks ih => simp [framesOf, ih]

theorem endEntries_length (n M : Nat) : (endEntries n M).length = M := by
  induction M generalizing n with
  | zero => rfl
  | succ M ih => simp [endEntries, ih]

theorem normNl_eq_self (l : List Char) (h : '\r' ∉ l) : normNl l = l := by
  induction l with
  | nil => rfl
  | cons c t ih =>
    have hc : c ≠ '\r' := fun hh => h (by simp [hh])
    have ht : '\r' ∉ t := fun hh => h (by simp [hh])
    cases t with
    | nil => simp [normNl, hc]
    | cons d rest => simp only [normNl, if_neg hc]; rw [ih ht]

theorem anStep_END_nil (extra : List ExtraEnd) (n : Nat) :
    anStep ⟨[], extra, cleanLex⟩ n (("END").data) =
      ⟨[], extra ++ [⟨n, 1, ("END").data⟩], cleanLex⟩ := rfl

theorem anStep_MAP (s : List Frame) (extra : List ExtraEnd) (n : Nat) :
    anStep ⟨s, extra, cleanLex⟩ n (("MAP").data) =
      ⟨⟨("MAP").data, n, 1⟩ :: s, extra, cleanLex⟩ := rfl

theorem anStep_opener (kw : List Char) (hkw : kw ∈ DEFAULT_BLOCK_OPENERS)
    (s : List Frame) (extra : List ExtraEnd) (n : Nat) :
    anStep ⟨s, extra, cleanLex⟩ n kw = ⟨⟨kw, n, 1⟩ :: s, extra, cleanLex⟩ := by
  simp only [DEFAULT_BLOCK_OPENERS, List.mem_cons, List.not_mem_nil, or_false] at hkw
  rcases hkw with rfl | rfl | rfl | rfl | rfl | rfl | rfl | rfl | rfl | rfl | rfl |
    rfl | rfl | rfl | rfl | rfl | rfl | rfl | rfl | rfl | rfl | rfl | rfl | rfl
  all_goals rfl

theorem anRun_append (st : AnState) (n : Nat) (ls1 ls2 : List (List Char)) :
    anRun st n (ls1 ++ ls2) = anRun (anRun st n ls1) (n + ls1.length) ls2 := by
  induction ls1 generalizing st n with
  | nil => simp [anRun]
  | cons l ls ih =>
    show anRun (anStep st n l) (n + 1) (ls ++ ls2) = _
    rw [ih]
    have hn : n + 1 + ls.length = n + (l :: ls).length := by
      simp only [List.length_cons]
      omega
    rw [hn]
    rfl

theorem anRun_ends (M : Nat) : ∀ (n : Nat) (extra : List ExtraEnd),
    anRun ⟨[], extra, cleanLex⟩ n (List.replicate M (("END").data)) =
      ⟨[], extra ++ endEntries n M, cleanLex⟩ := by
  induction M with
  | zero => intro n extra; simp [anRun, endEntries]
  | succ M ih =>
    intro n extra
    show anRun (anStep ⟨[], extra, cleanLex⟩ n (("END").data)) (n + 1) _ = _
    rw [anStep_END_nil, ih]
    simp [endEntries]

theorem anRun_openers (ks : List (List Char))
    (h : ∀ k ∈ ks, k ∈ DEFAULT_BLOCK_OPENERS) :
    ∀ (n : Nat) (s : List Frame) (extra : List ExtraEnd),
    anRun ⟨s, extra, cleanLex⟩ n ks =
      ⟨(framesOf n ks).reverse ++ s, extra, cleanLex⟩ := by
  induction ks with
  | nil => intro n s extra; simp [anRun, framesOf]
  | cons k ks ih =>
    intro n s extra
    show anRun (anStep ⟨s, extra, cleanLex⟩ n k) (n + 1) ks = _
    rw [anStep_opener k (h k (List.mem_cons_self k ks))]
    rw [ih (fun x hx => h x (List.mem_cons_of_mem k hx))]
    simp [framesOf]

theorem analyze_synth (M : Nat) (ks : List (List Char))
    (h : ∀ k ∈ ks, k ∈ DEFAULT_BLOCK_OPENERS) :
    (analyze (synthText M ks)).missingEnds = framesOf (M + 1) ks ∧
      (analyze (synthText M ks)).extraEnds = endEntries 1 M := by
  have hpieces : ∀ l ∈ List.replicate M (("END").data) ++ ks, '\n' ∉ l ∧ '\r' ∉ l := by
    intro l hl
    rcases List.mem_append.mp hl with hl | hl
    · rw [List.eq_of_mem_replicate hl]
      exact ⟨by decide, by decide⟩
    · have := h l hl
      simp only [DEFAULT_BLOCK_OPENERS, List.mem_cons, List.not_mem_nil, or_false] at this
      rcases this with rfl | rfl | rfl | rfl | rfl | rfl | rfl | rfl | rfl | rfl | rfl |
        rfl | rfl | rfl | rfl | rfl | rfl | rfl | rfl | rfl | rfl | rfl | rfl | rfl
      all_goals exact ⟨by decide, by decide⟩
  by_cases hz : List.replicate M (("END").data) ++ ks = []
  · rcases List.append_eq_nil.mp hz with ⟨h1, h2⟩
    have hM : M = 0 := by
      by_contra hM
      cases M with
      | zero => exact hM rfl
      | succ m => simp [List.replicate] at h1
    subst hM h2
    exact ⟨rfl, rfl⟩
  · have hnorm : normNl (synthText M ks) = synthText M ks := by
      refine normNl_eq_self _ ?_
      intro hmem
      rcases joinNl_mem _ '\r' hmem with hh | ⟨l, hl, hcl⟩
      · exact absurd hh (by decide)
      · exact (hpieces l hl).2 hcl
    have hsplit : splitOnNl (synthText M ks) = List.replicate M (("END").data) ++ ks :=
      splitOnNl_joinNl _ hz (fun l hl => (hpieces l hl).1)
    have hrun : anRun ⟨[], [], cleanLex⟩ 1 (List.replicate M (("END").data) ++ ks) =
        ⟨(framesOf (M + 1) ks).reverse, endEntries 1 M, cleanLex⟩ := by
      rw [anRun_append, anRun_ends]
      rw [anRun_openers ks h]
      simp [List.length_replicate, Nat.add_comm]
    constructor
    · show (anRun ⟨[], [], cleanLex⟩ 1 (splitOnNl (normNl (synthText M ks)))).stack.reverse = _
      rw [hnorm, hsplit, hrun]
      simp
    · show (anRun ⟨[], [], cleanLex⟩ 1 (splitOnNl (normNl (synthText M ks)))).extraEnds = _
      rw [hnorm, hsplit, hrun]

/-- C3: balance soundness on synthetically unbalanced texts — a text of `M`
unmatched standalone `END` lines followed by `N` unmatched standalone opener
lines makes `analyze` report exactly `N` entries in `missingEnds` and exactly
`M` entries in `extraEnds`, and its `ok` flag is true iff both lists are
empty (i.e. iff `N = 0` and `M = 0`). -/
theorem analyze_balance_soundness (N M : Nat) :
    (analyze (synthText M (List.replicate N (("MAP").data)))).missingEnds.length = N ∧
    (analyze (synthText M (List.replicate N (("MAP").data)))).extraEnds.length = M ∧
    ((analyze (synthText M (List.replicate N (("MAP").data)))).ok = true ↔
      N = 0 ∧ M = 0) := by
  have h : ∀ k ∈ List.replicate N (("MAP").data), k ∈ DEFAULT_BLOCK_OPENERS := by
    intro k hk
    rw [List.eq_of_mem_replicate hk]
    decide
  obtain ⟨h1, h2⟩ := analyze_synth M (List.replicate N (("MAP").data)) h
  have hm : (analyze (synthText M (List.replicate N (("MAP").data)))).missingEnds.length = N := by
    rw [h1, framesOf_length, List.length_replicate]
  have he : (analyze (synthText M (List.replicate N (("MAP").data)))).extraEnds.length = M := by
    rw [h2, endEntries_length]
  refine ⟨hm, he, ?_⟩
  have hok : (analyze (synthText M (List.replicate N (("MAP").data)))).ok =
      ((analyze (synthText M (List.replicate N (("MAP").data)))).extraEnds.isEmpty &&
        (analyze (synthText M (List.replicate N (("MAP").data)))).missingEnds.isEmpty) := rfl
  rw [hok]
  constructor
  · intro hb
    rw [Bool.and_eq_true] at hb
    obtain ⟨hb1, hb2⟩ := hb
    rw [List.isEmpty_iff] at hb1 hb2
    constructor
    · rw [← hm, hb2]; rfl
    · rw [← he, hb1]; rfl
  · rintro ⟨rfl, rfl⟩
    rw [Bool.and_eq_true, List.isEmpty_iff, List.isEmpty_iff]
    constructor
    · rw [← List.length_eq_zero]; exact he
    · rw [← List.length_eq_zero]; exact hm

/-- C8 (amended): `analyze` never raises (it is a total function returning a
result record); at EOF every still-open frame is reported in the
`missingEnds` list ordered OUTERMOST first (the frames of the opener lines in
textual order; only the human-readable `message` renders them innermost
first), and every pop attempted on an empty stack is recorded as an
`extraEnds` entry (one per unmatched `END` line, in textual order) rather
than raised as an error. -/
theorem analyze_eof_reports (M : Nat) (ks : List (List Char))
    (h : ∀ k ∈ ks, k ∈ DEFAULT_BLOCK_OPENERS) :
    (analyze (synthText M ks)).missingEnds = framesOf (M + 1) ks ∧
      (analyze (synthText M ks)).extraEnds = endEntries 1 M :=
  analyze_synth M ks h

/-- Witness for C8: at `M = 1`, `ks = [MAP, LAYER, CLASS]` the hypotheses
hold and the reported lists are concrete. -/
theorem analyze_eof_reports_witness :
    (analyze (synthText 1 [("MAP").data, ("LAYER").data, ("CLASS").data])).missingEnds =
        framesOf 2 [("MAP").data, ("LAYER").data, ("CLASS").data] ∧
      (analyze (synthText 1 [("MAP").data, ("LAYER").data, ("CLASS").data])).extraEnds =
        endEntries 1 1 :=
  analyze_eof_reports 1 [("MAP").data, ("LAYER").data, ("CLASS").data] (by decide)

/-- C8 is false as stated about the order of the `missingEnds` list: on
`"MAP\nLAYER"` the list holds the outermost frame (`MAP`, opened at line 1)
first and the innermost (`LAYER`, line 2) last — not innermost first. -/
theorem analyze_missingEnds_not_innermost_first :
    (analyze (("MAP\nLAYER").data)).missingEnds =
      [⟨("MAP").data, 1, 1⟩, ⟨("LAYER").data, 2, 1⟩] ∧
    (analyze (("MAP\nLAYER").data)).missingEnds ≠
      [⟨("LAYER").data, 2, 1⟩, ⟨("MAP").data, 1, 1⟩] := by
  exact ⟨by decide, by decide⟩

/-! ## Heuristic syntax/context checker (`syntaxisErrorDetector`,
syntaxisErrorDetector.js).  Options are modelled at their defaults except
`softSuppressionLines` (parameter `susp`) and `includeNotes`:
`enableSuggestions = true`, `maxSuggestions = 3`,
`allowMultilineQuotes = false`. -/

/-- Issue severity. -/
inductive Severity where
  | HARD
  | SOFT
deriving DecidableEq, Repr

/-- Issue kinds of the checker. -/
inductive IssueKind where
  | NESTING
  | END_MISMATCH
  | MISSING_END
  | MISSING_QUOTE
  | UNKNOWN_KEYWORD
  | CONTEXT
  | METADATA_FORMAT
deriving DecidableEq, Repr

/-- A diagnostic issue. -/
structure Issue where
  lineNo : Nat
  col : Nat
  kind : IssueKind
  severity : Severity
  message : List Char
  excerpt : List Char
deriving DecidableEq, Repr

/-- Source constant `BLOCKS` of the checker. -/
def synBLOCKS : List (List Char) :=
  ["MAP".data, "LAYER".data, "CLASS".data, "STYLE".data, "WEB".data,
   "METADATA".data, "PROJECTION".data, "LABEL".data, "OUTPUTFORMAT".data,
   "SYMBOL".data, "LEGEND".data, "SCALEBAR".data, "QUERYMAP".data,
   "REFERENCE".data, "CLUSTER".data, "GRID".data, "COMPOSITE".data]

/-- Source table `ALLOWED_PARENTS` (valid parent blocks per opener). -/
def synALLOWED_PARENTS (kw : List Char) : Option (List (List Char)) :=
  if kw = ("MAP").data then some [("ROOT").data]
  else if kw = ("LAYER").data then some [("MAP").data]
  else if kw = ("CLASS").data then some [("LAYER").data]
  else if kw = ("STYLE").data then some [("CLASS").data, ("LABEL").data]
  else if kw = ("LABEL").data then some [("CLASS").data]
  else if kw = ("WEB").data then some [("MAP").data]
  else if kw = ("METADATA").data then
    some [("MAP").data, ("LAYER").data, ("CLASS").data, ("WEB").data, ("OUTPUTFORMAT").data]
  else if kw = ("PROJECTION").data then some [("MAP").data, ("LAYER").data]
  else if kw = ("OUTPUTFORMAT").data then some [("MAP").data]
  else if kw = ("SYMBOL").data then some [("MAP").data]
  else if kw = ("LEGEND").data then some [("MAP").data]
  else if kw = ("SCALEBAR").data then some [("MAP").data]
  else if kw = ("QUERYMAP").data then some [("MAP").data]
  else if kw = ("REFERENCE").data then some [("MAP").data]
  else if kw = ("CLUSTER").data then some [("LAYER").data]
  else if kw = ("GRID").data then some [("LAYER").data]
  else if kw = ("COMPOSITE").data then some [("LAYER").data]
  else none

/-- Source table `ALLOWED_FIRST_TOKENS` as an ordered entry list (object
literal insertion order); `METADATA` and `PROJECTION` carry `null`. -/
def synFIRST_TOKENS_ENTRIES : List (List Char × Option (List (List Char))) :=
  [(("ROOT").data, some [("MAP").data]),
   (("MAP").data, some
     [("NAME").data, ("STATUS").data, ("EXTENT").data, ("UNITS").data,
      ("SIZE").data, ("IMAGETYPE").data, ("IMAGECOLOR").data,
      ("SHAPEPATH").data, ("FONTSET").data, ("SYMBOLSET").data,
      ("CONFIG").data, ("DEBUG").data, ("OUTPUTFORMAT").data, ("SYMBOL").data,
      ("WEB").data, ("LAYER").data, ("LEGEND").data, ("SCALEBAR").data,
      ("QUERYMAP").data, ("REFERENCE").data, ("PROJECTION").data,
      ("METADATA").data, ("MAXSIZE").data, ("RESOLUTION").data,
      ("DEFRESOLUTION").data, ("ANGLE").data, ("TRANSPARENT").data,
      ("END").data, ("INCLUDE").data]),
   (("LAYER").data, some
     [("NAME").data, ("TYPE").data, ("STATUS").data, ("DATA").data,
      ("CONNECTION").data, ("CONNECTIONTYPE").data, ("FILTER").data,
      ("FILTERITEM").data, ("FILTERTYPE").data, ("CLASSITEM").data,
      ("LABELITEM").data, ("GROUP").data, ("MINSCALEDENOM").data,
      ("MAXSCALEDENOM").data, ("MINDISTANCE").data, ("MAXDISTANCE").data,
      ("OPACITY").data, ("TRANSPARENCY").data, ("PROCESSING").data,
      ("VALIDATION").data, ("TEMPLATE").data, ("HEADER").data,
      ("FOOTER").data, ("TOLERANCE").data, ("TOLERANCEUNITS").data,
      ("PROJECTION").data, ("METADATA").data, ("CLASS").data,
      ("CLUSTER").data, ("GRID").data, ("COMPOSITE").data, ("END").data,
      ("INCLUDE").data]),
   (("CLASS").data, some
     [("NAME").data, ("TITLE").data, ("GROUP").data, ("EXPRESSION").data,
      ("TEXT").data, ("MINSCALEDENOM").data, ("MAXSCALEDENOM").data,
      ("STYLE").data, ("LABEL").data, ("TEMPLATE").data, ("KEYIMAGE").data,
      ("METADATA").data, ("OPACITY").data, ("END").data, ("INCLUDE").data]),
   (("STYLE").data, some
     [("COLOR").data, ("OUTLINECOLOR").data, ("WIDTH").data,
      ("MINWIDTH").data, ("MAXWIDTH").data, ("SIZE").data, ("MINSIZE").data,
      ("MAXSIZE").data, ("SYMBOL").data, ("PATTERN").data, ("GAP").data,
      ("ANGLE").data, ("OPACITY").data, ("END").data]),
   (("LABEL").data, some
     [("TEXT").data, ("TYPE").data, ("FONT").data, ("SIZE").data,
      ("MINSIZE").data, ("MAXSIZE").data, ("COLOR").data,
      ("OUTLINECOLOR").data, ("SHADOWCOLOR").data, ("SHADOWSIZE").data,
      ("POSITION").data, ("OFFSET").data, ("ANGLE").data, ("WRAP").data,
      ("BUFFER").data, ("MINSCALEDENOM").data, ("MAXSCALEDENOM").data,
      ("STYLE").data, ("END").data]),
   (("WEB").data, some
     [("IMAGEPATH").data, ("IMAGEURL").data, ("TEMPLATE").data,
      ("HEADER").data, ("FOOTER").data, ("ERROR").data, ("METADATA").data,
      ("END").data]),
   (("OUTPUTFORMAT").data, some
     [("NAME").data, ("DRIVER").data, ("MIMETYPE").data, ("IMAGEMODE").data,
      ("EXTENSION").data, ("FORMATOPTION").data, ("TRANSPARENT").data,
      ("END").data, ("METADATA").data]),
   (("METADATA").data, none),
   (("PROJECTION").data, none),
   (("SYMBOL").data, some
     [("NAME").data, ("TYPE").data, ("IMAGE").data, ("POINTS").data,
      ("FILLED").data, ("END").data]),
   (("LEGEND").data, some
     [("STATUS").data, ("KEYSIZE").data, ("LABEL").data, ("TEMPLATE").data,
      ("END").data]),
   (("SCALEBAR").data, some
     [("STATUS").data, ("SIZE").data, ("INTERVALS").data, ("UNITS").data,
      ("COLOR").data, ("END").data]),
   (("QUERYMAP").data, some
     [("STATUS").data, ("SIZE").data, ("COLOR").data, ("STYLE").data,
      ("END").data]),
   (("REFERENCE").data, some
     [("STATUS").data, ("IMAGE").data, ("EXTENT").data, ("SIZE").data,
      ("COLOR").data, ("END").data]),
   (("CLUSTER").data, some
     [("MAXDISTANCE").data, ("REGION").data, ("BUFFER").data, ("END").data]),
   (("GRID").data, some
     [("MINARCS").data, ("MAXARCS").data, ("MININTERVAL").data,
      ("MAXINTERVAL").data, ("END").data]),
   (("COMPOSITE").data, some
     [("OPACITY").data, ("COMPOP").data, ("END").data])]

/-- `ALLOWED_FIRST_TOKENS[ctx]` (missing key and `null` both give `none`). -/
def synFirstTokens (ctx : List Char) : Option (List (List Char)) :=
  match synFIRST_TOKENS_ENTRIES.find? (fun e => decide (e.1 = ctx)) with
  | some e => e.2
  | none => none

/-- Source constant `GLOBAL_KNOWN` (a `Set` built from the table keys, several
per-context token sets, and `END`; `dedup` keeps first occurrences, matching
`Set` insertion semantics — only membership and uniqueness matter). -/
def synGLOBAL_KNOWN : List (List Char) :=
  (((synFIRST_TOKENS_ENTRIES.map Prod.fst).filter
      (fun k => decide (k ≠ ("ROOT").data))) ++
    ((synFirstTokens (("ROOT").data)).getD []) ++
    ((synFirstTokens (("MAP").data)).getD []) ++
    ((synFirstTokens (("LAYER").data)).getD []) ++
    ((synFirstTokens (("CLASS").data)).getD []) ++
    ((synFirstTokens (("STYLE").data)).getD []) ++
    ((synFirstTokens (("LABEL").data)).getD []) ++
    ((synFirstTokens (("WEB").data)).getD []) ++
    ((synFirstTokens (("OUTPUTFORMAT").data)).getD []) ++
    [("END").data]).dedup

/-- Embeds `looksUpperKeyword` (regex `^[A-Z_][A-Z0-9_]*$`). -/
def looksUpperKeyword (s : List Char) : Bool := isAllCapsIdentifier s

/-- Embeds `isAllowedParent(child, parent)`. -/
def isAllowedParent (child parent : List Char) : Bool :=
  match synALLOWED_PARENTS child with
  | none => true
  | some allowed => decide (parent ∈ allowed)

/-- Embeds `contextsWhereKeywordIsAllowed(kw)`: contexts whose token set
contains `kw`, in table order, without `ROOT`. -/
def contextsWhereKeywordIsAllowed (kw : List Char) : List (List Char) :=
  (synFIRST_TOKENS_ENTRIES.filterMap (fun e =>
    match e.2 with
    | none => none
    | some set => if kw ∈ set then some e.1 else none)).filter
    (fun c => decide (c ≠ ("ROOT").data))

/-- Inner loop of the Levenshtein DP: given the previous row `v0` and the
already-computed entry `prev` of the current row, produce the rest of the
current row (`v1[1..]` of the source). -/
def levRowGo (ca : Char) : List Char → List Nat → Nat → List Nat
  | [], _, _ => []
  | cb :: bs, v0, prev =>
    match v0 with
    | d :: d1 :: ds =>
      let cost := if ca = cb then 0 else 1
      let cur := min (min (d1 + 1) (prev + 1)) (d + cost)
      cur :: levRowGo ca bs (d1 :: ds) cur
    | _ => []

/-- Row iteration of the Levenshtein DP over the characters of `a`. -/
def levRows (b : List Char) : List Char → Nat → List Nat → List Nat
  | [], _, v0 => v0
  | ca :: rest, i, v0 =>
    levRows b rest (i + 1) ((i + 1) :: levRowGo ca b v0 (i + 1))

/-- Embeds `levenshtein(a, b)` (two-row DP; the source first swaps so that
the second argument is the shorter one). -/
def levenshtein (a b : List Char) : Nat :=
  if a = b then 0
  else if a.length = 0 then b.length
  else if b.length = 0 then a.length
  else
    let p := if b.length > a.length then (b, a) else (a, b)
    let row := levRows p.2 p.1 0 (List.range (p.2.length + 1))
    (row.getLast?).getD 0

/-- Code-point lexicographic comparison standing in for
`String.prototype.localeCompare` in the suggestion sort (all candidates are
ASCII keywords, where the locale order coincides). -/
def lexLe : List Char → List Char → Bool
  | [], _ => true
  | _ :: _, [] => false
  | a :: rest, b :: bs => if a = b then lexLe rest bs else decide (a < b)

/-- Absolute length difference (`Math.abs(cand.length - w.length)`). -/
def natDist (a b : Nat) : Nat := max a b - min a b

/-- Embeds `suggestKeywords(kw)` at the default options
(`enableSuggestions = true`, `maxSuggestions = 3`): Levenshtein-near known
keywords, sorted by distance then name, first three. -/
def suggestKeywords (kw : List Char) : List (List Char) :=
  let w := upper kw
  let maxDist := if w.length ≤ 6 then 2 else 3
  let scored := synGLOBAL_KNOWN.filterMap (fun cand =>
    if cand = w then none
    else if maxDist < natDist cand.length w.length then none
    else
      let d := levenshtein w cand
      if d ≤ maxDist then some (cand, d) else none)
  ((scored.mergeSort (fun x y =>
    x.2 < y.2 || (decide (x.2 = y.2) && lexLe x.1 y.1))).take 3).map Prod.fst

/-- A stack frame of the checker (`{ type, line, col }`); the bottom sentinel
is `ROOT` at line 0, column 0. -/
structure SynFrame where
  type : List Char
  line : Nat
  col : Nat
deriving DecidableEq, Repr

/-- Embeds `currentContext(stack)` (top of the stack or `ROOT`); the stack is
modelled with its top at the head. -/
def currentContext (stack : List SynFrame) : List Char :=
  match stack.head? with
  | some f => f.type
  | none => ("ROOT").data

/-- Message of a MISSING_QUOTE issue. -/
def msgQuote (q : Char) : List Char :=
  ("Βρέθηκε ανοιχτό ").data ++ [q] ++ (" χωρίς κλείσιμο στην ίδια γραμμή.").data

/-- Message of an END_MISMATCH issue. -/
def msgEndMismatch : List Char :=
  ("Βρέθηκε END χωρίς ανοιχτό block να κλείσει.").data

/-- Message of a NESTING issue. -/
def msgNesting (kw parent : List Char) : List Char :=
  ("Λάθος nesting: βρέθηκε ").data ++ kw ++
    (" ενώ το τρέχον block είναι ").data ++ parent ++
    (". Το ").data ++ kw ++ (" αναμένεται μέσα σε: ").data ++
    (let js := joinSep (", ").data ((synALLOWED_PARENTS kw).getD [])
     if js = [] then ("—").data else js) ++ (".").data

/-- Message of the SOFT CONTEXT issue raised for a block opener. -/
def msgBlockContext (kw parent : List Char) : List Char :=
  ("Ύποπτο context: το keyword ").data ++ kw ++
    (" δεν αναμένεται μέσα στο ").data ++ parent ++ (".").data

/-- Message of a METADATA_FORMAT issue. -/
def msgMetadataFormat : List Char :=
  ("Πιθανό format METADATA: συνήθως είναι \"key\" \"value\".").data

/-- The `extra` tail of the non-block CONTEXT message. -/
def msgContextExtra (kw : List Char) : List Char :=
  if kw ∈ synGLOBAL_KNOWN then
    let allowedIn := contextsWhereKeywordIsAllowed kw
    if allowedIn ≠ [] then
      (" (συνήθως επιτρέπεται σε: ").data ++
        joinSep (", ").data (allowedIn.take 4) ++ (")").data
    else (" (ίσως ασυμβατό με την έκδοση ή σε λάθος block)").data
  else (" (πιθανό typo ή άγνωστο keyword)").data

/-- Message of the non-block CONTEXT issue. -/
def msgContext (kw ctx : List Char) : List Char :=
  ("Λάθος context/σειρά: το keyword ").data ++ kw ++
    (" δεν αναμένεται μέσα στο ").data ++ ctx ++ (".").data ++
    msgContextExtra kw

/-- Message of an UNKNOWN_KEYWORD issue. -/
def msgUnknown (kw : List Char) : List Char :=
  ("Άγνωστη/ύποπτη λέξη-κλειδί στην αρχή γραμμής: ").data ++ kw ++
    (" (πιθανό typo)").data ++
    (let sugg := suggestKeywords kw
     if sugg ≠ [] then
       (". Μήπως εννοείς: ").data ++ joinSep (", ").data sugg ++ (";").data
     else (".").data)

/-- Message of the EOF MISSING_END issue: the open blocks above `ROOT`,
bottom-to-top, joined with ` → `. -/
def msgMissingEnd (stack : List SynFrame) : List Char :=
  ("Φαίνεται ότι λείπουν END. Ανοιχτά blocks στο τέλος: ").data ++
    joinSep (" → ").data ((stack.reverse.drop 1).map (fun b =>
      b.type ++ (" (άνοιξε στη γραμμή ").data ++ natChars b.line ++
        (", στήλη ").data ++ natChars b.col ++ (")").data))

/-- Scan state of the checker: stack (top at head, `ROOT` sentinel at the
bottom), the ordered sequence of issues handed to `addIssue` so far, and the
lexer carry-over.  The scan itself never reads the issue accumulator, so the
cascade-control fold can be applied to the collected sequence afterwards,
exactly as the interleaved `addIssue` calls of the source do. -/
structure SynState where
  stack : List SynFrame
  raws : List Issue
  lex : LexState
deriving DecidableEq, Repr

/-- One line of the checker's scan. -/
def synStep (st : SynState) (lineNo : Nat) (rawLine : List Char) : SynState :=
  let out := tokenizeLine false rawLine st.lex
  let toks := out.1
  let lex' := out.2.1
  if toks = [] then { st with lex := lex' }
  else
    let excerpt := jsTrim rawLine
    let quoteIssues := out.2.2.map (fun u =>
      Issue.mk lineNo u.1 IssueKind.MISSING_QUOTE Severity.HARD (msgQuote u.2) excerpt)
    let raws1 := st.raws ++ quoteIssues
    let ctx := currentContext st.stack
    match toks.head? with
    | none => { stack := st.stack, raws := raws1, lex := lex' }
    | some (Tok.str _ _ _ _) => { stack := st.stack, raws := raws1, lex := lex' }
    | some (Tok.word text col) =>
      let kw := upper text
      if kw = ("END").data then
        if st.stack.length ≤ 1 then
          { stack := st.stack,
            raws := raws1 ++
              [Issue.mk lineNo col IssueKind.END_MISMATCH Severity.HARD msgEndMismatch excerpt],
            lex := lex' }
        else { stack := st.stack.tail, raws := raws1, lex := lex' }
      else if kw ∈ synBLOCKS then
        let nestingIssues :=
          if isAllowedParent kw ctx = false then
            [Issue.mk lineNo col IssueKind.NESTING Severity.HARD (msgNesting kw ctx) excerpt]
          else []
        let contextIssues :=
          match synFirstTokens ctx with
          | some set =>
            if kw ∉ set then
              [Issue.mk lineNo col IssueKind.CONTEXT Severity.SOFT (msgBlockContext kw ctx) excerpt]
            else []
          | none => []
        { stack := ⟨kw, lineNo, col⟩ :: st.stack,
          raws := raws1 ++ nestingIssues ++ contextIssues,
          lex := lex' }
      else if ctx = ("METADATA").data then
        if 2 ≤ toks.length then
          let kOk :=
            match toks.head? with
            | some (Tok.str _ _ _ _) => true
            | some (Tok.word t _) => !(looksUpperKeyword (upper t))
            | none => false
          let vOk :=
            match toks.get? 1 with
            | some (Tok.str _ _ _ _) => true
            | some (Tok.word _ _) => true
            | none => false
          if kOk && vOk then { stack := st.stack, raws := raws1, lex := lex' }
          else
            { stack := st.stack,
              raws := raws1 ++
                [Issue.mk lineNo col IssueKind.METADATA_FORMAT Severity.SOFT
                  msgMetadataFormat excerpt],
              lex := lex' }
        else { stack := st.stack, raws := raws1, lex := lex' }
      else if ctx = ("PROJECTION").data then
        { stack := st.stack, raws := raws1, lex := lex' }
      else
        let contextIssues :=
          match synFirstTokens ctx with
          | some set =>
            if looksUpperKeyword kw && decide (kw ∉ set) then
              [Issue.mk lineNo col IssueKind.CONTEXT Severity.SOFT (msgContext kw ctx) excerpt]
            else []
          | none => []
        let unknownIssues :=
          if looksUpperKeyword kw && decide (kw ∉ synGLOBAL_KNOWN) then
            [Issue.mk lineNo col IssueKind.UNKNOWN_KEYWORD Severity.SOFT (msgUnknown kw) excerpt]
          else []
        { stack := st.stack, raws := raws1 ++ contextIssues ++ unknownIssues, lex := lex' }

/-- The scan loop of the checker over the lines, with 1-based line numbers. -/
def synRun : SynState → Nat → List (List Char) → SynState
  | st, _, [] => st
  | st, n, l :: ls => synRun (synStep st n l) (n + 1) ls

/-- The initial scan state (`stack = [{type:'ROOT', line:0, col:0}]`). -/
def synInit : SynState := ⟨[⟨("ROOT").data, 0, 0⟩], [], cleanLex⟩

/-- The ordered sequence of issues the checker records on `text` (the
arguments of its `addIssue` calls, in call order), including the EOF
MISSING_END issue when blocks stay open. -/
def rawIssues (text : List Char) : List Issue :=
  let lines := splitOnNl (normNl text)
  let fin := synRun synInit 1 lines
  fin.raws ++
    (if 1 < fin.stack.length then
      [Issue.mk lines.length 0 IssueKind.MISSING_END Severity.HARD
        (msgMissingEnd fin.stack) []]
     else [])

/-- Cascade-control state of `addIssue`. -/
structure AddState where
  issues : List Issue
  suppressSoftUntilLine : Nat
  suppressedSoftCount : Nat
deriving DecidableEq, Repr

/-- The initial cascade-control state. -/
def initAdd : AddState := ⟨[], 0, 0⟩

/-- Embeds `addIssue(issue)` with its cascade control: a SOFT issue at a line
inside the suppression window is only counted; everything else is appended,
and a HARD issue extends the window to `lineNo + susp`. -/
def addIssue (susp : Nat) (st : AddState) (i : Issue) : AddState :=
  if i.severity = Severity.SOFT ∧ i.lineNo ≤ st.suppressSoftUntilLine then
    { st with suppressedSoftCount := st.suppressedSoftCount + 1 }
  else
    { issues := st.issues ++ [i],
      suppressSoftUntilLine :=
        if i.severity = Severity.HARD then
          max st.suppressSoftUntilLine (i.lineNo + susp)
        else st.suppressSoftUntilLine,
      suppressedSoftCount := st.suppressedSoftCount }

/-- The report order of issue kinds (source constant `order`). -/
def synKindOrder : List IssueKind :=
  [IssueKind.NESTING, IssueKind.END_MISMATCH, IssueKind.MISSING_END,
   IssueKind.MISSING_QUOTE, IssueKind.UNKNOWN_KEYWORD, IssueKind.CONTEXT,
   IssueKind.METADATA_FORMAT]

/-- Source table `kindTitle`. -/
def kindTitle : IssueKind → List Char
  | IssueKind.NESTING => ("Λάθος nesting blocks").data
  | IssueKind.END_MISMATCH => ("END χωρίς αντίστοιχο block").data
  | IssueKind.MISSING_END => ("Λείπει END (ανοιχτά blocks)").data
  | IssueKind.MISSING_QUOTE => ("Λείπει εισαγωγικό (\" ή ')").data
  | IssueKind.UNKNOWN_KEYWORD => ("Άγνωστη/λάθος λέξη-κλειδί").data
  | IssueKind.CONTEXT => ("Λάθος σειρά/λάθος context").data
  | IssueKind.METADATA_FORMAT => ("Ύποπτο format σε METADATA").data

/-- The `  • Γραμμή ...` line(s) of one reported issue. -/
def issueLinesOut (it : Issue) : List (List Char) :=
  (("  • Γραμμή ").data ++ natChars it.lineNo ++
    (if it.col ≠ 0 then (", στήλη ").data ++ natChars it.col else []) ++
    (": ").data ++ it.message) ::
  (if it.excerpt ≠ [] then [("    Απόσπασμα: ").data ++ it.excerpt] else [])

/-- One kind group of a report section (empty when no issue has the kind). -/
def kindGroupOut (arr : List Issue) (k : IssueKind) : List (List Char) :=
  let items := arr.filter (fun i => decide (i.kind = k))
  if items = [] then []
  else
    [] :: (("— ").data ++ kindTitle k ++ (" (").data ++
      natChars items.length ++ (")").data) ::
      (items.map issueLinesOut).flatten

/-- A whole HARD/SOFT section grouped by kind in report order. -/
def sectionOut (arr : List Issue) : List (List Char) :=
  (synKindOrder.map (kindGroupOut arr)).flatten

/-- The cascade-suppression summary line of the report. -/
def suppressionNote (n : Nat) : List Char :=
  ("(Info) Καταστάλθηκαν ").data ++ natChars n ++
    (" soft warning(s) λόγω cascade control (μετά από HARD error).").data

/-- The closing heuristic note of the report. -/
def synFinalNote : List Char :=
  ("Σημείωση: Ο detector είναι heuristic. Για 100% ακρίβεια, ιδανικά τρέχεις και τον επίσημο MapServer parser και χαρτογραφείς το error message.").data

/-- The report lines built by the checker when at least one issue survives
cascade control. -/
def reportLines (issues : List Issue) (suppressed : Nat) (includeNotes : Bool) :
    List (List Char) :=
  let hard := issues.filter (fun i => decide (i.severity = Severity.HARD))
  let soft := issues.filter (fun i => decide (i.severity = Severity.SOFT))
  [("Εντοπίστηκαν ").data ++ natChars issues.length ++
    (" πιθανό(ά) πρόβλημα(τα):").data] ++
  (if hard ≠ [] then
    ([] : List Char) ::
      (("== HARD errors (πιθανό parse fail) (").data ++ natChars hard.length ++
        (") ==").data) :: sectionOut hard
   else []) ++
  (if soft ≠ [] then
    ([] : List Char) ::
      (("== SOFT warnings (πιθανό typo/λάθος context/έκδοση) (").data ++
        natChars soft.length ++ (") ==").data) :: sectionOut soft
   else []) ++
  (if 0 < suppressed then [[], suppressionNote suppressed] else []) ++
  (if includeNotes then [[], synFinalNote] else [])

/-- The no-findings message of the checker. -/
def synNoIssueLines (includeNotes : Bool) : List (List Char) :=
  (("Δεν εντοπίστηκαν προφανή συντακτικά προβλήματα με βάση heuristics.").data) ::
    (if includeNotes then
      [("Σημείωση: Ο έλεγχος είναι heuristic (όχι πλήρης MapServer parser). Αν έχεις συγκεκριμένο error από MapServer, στείλε το για πιο στοχευμένη αντιστοίχιση.").data]
     else [])

/-- Embeds `syntaxisErrorDetector(mapfileText, options)`: scan, apply cascade
control to the recorded issues, and render the (Greek) report.  `susp` is
`options.softSuppressionLines` (default 25), `includeNotes` is
`options.includeNotes`. -/
def syntaxisErrorDetector (text : List Char) (susp : Nat) (includeNotes : Bool) :
    List Char :=
  let fin := (rawIssues text).foldl (addIssue susp) initAdd
  if fin.issues = [] then joinNl (synNoIssueLines includeNotes)
  else joinNl (reportLines fin.issues fin.suppressedSoftCount includeNotes)

/-! ## Cascade-control lemmas (C6) -/

theorem addIssue_until_mono (susp : Nat) (st : AddState) (i : Issue) :
    st.suppressSoftUntilLine ≤ (addIssue susp st i).suppressSoftUntilLine := by
  unfold addIssue
  split_ifs with h1 h2
  · exact le_refl _
  · exact le_max_left _ _
  · exact le_refl _

theorem foldl_until_mono (susp : Nat) :
    ∀ (raw : List Issue) (st : AddState),
      st.suppressSoftUntilLine ≤
        (raw.foldl (addIssue susp) st).suppressSoftUntilLine := by
  intro raw
  induction raw with
  | nil => intro st; exact le_refl _
  | cons i raw ih =>
    intro st
    exact le_trans (addIssue_until_mono susp st i) (ih (addIssue susp st i))

theorem addIssue_count_mono (susp : Nat) (st : AddState) (i : Issue) :
    st.suppressedSoftCount ≤ (addIssue susp st i).suppressedSoftCount := by
  unfold addIssue
  split_ifs
  · exact Nat.le_succ _
  · exact le_refl _
  · exact le_refl _

theorem foldl_count_mono (susp : Nat) :
    ∀ (raw : List Issue) (st : AddState),
      st.suppressedSoftCount ≤ (raw.foldl (addIssue susp) st).suppressedSoftCount := by
  intro raw
  induction raw with
  | nil => intro st; exact le_refl _
  | cons i raw ih =>
    intro st
    exact le_trans (addIssue_count_mono susp st i) (ih (addIssue susp st i))

theorem addIssue_issues_front (susp : Nat) (st : AddState) (i : Issue) :
    st.issues <+: (addIssue susp st i).issues := by
  unfold addIssue
  split_ifs
  · exact List.prefix_refl _
  · exact List.prefix_append _ _
  · exact List.prefix_append _ _

theorem foldl_issues_front (susp : Nat) :
    ∀ (raw : List Issue) (st : AddState),
      st.issues <+: (raw.foldl (addIssue susp) st).issues := by
  intro raw
  induction raw with
  | nil => intro st; exact List.prefix_refl _
  | cons i raw ih =>
    intro st
    exact (addIssue_issues_front susp st i).trans (ih (addIssue susp st i))

theorem addIssue_hard (susp : Nat) (st : AddState) (i : Issue)
    (h : i.severity = Severity.HARD) :
    addIssue susp st i =
      ⟨st.issues ++ [i],
        max st.suppressSoftUntilLine (i.lineNo + susp),
        st.suppressedSoftCount⟩ := by
  unfold addIssue
  rw [if_neg, if_pos h]
  intro hc
  rw [h] at hc
  exact absurd hc.1 (by decide)

theorem addIssue_soft_suppressed (susp : Nat) (st : AddState) (i : Issue)
    (h : i.severity = Severity.SOFT) (hl : i.lineNo ≤ st.suppressSoftUntilLine) :
    addIssue susp st i = { st with suppressedSoftCount := st.suppressedSoftCount + 1 } := by
  unfold addIssue
  rw [if_pos ⟨h, hl⟩]

theorem foldl_issue_count (susp : Nat) :
    ∀ (raw : List Issue) (st : AddState),
      (raw.foldl (addIssue susp) st).issues.length +
          (raw.foldl (addIssue susp) st).suppressedSoftCount =
        st.issues.length + st.suppressedSoftCount + raw.length := by
  intro raw
  induction raw with
  | nil => intro st; simp
  | cons i raw ih =>
    intro st
    have h1 := ih (addIssue susp st i)
    have h2 : (addIssue susp st i).issues.length + (addIssue susp st i).suppressedSoftCount =
        st.issues.length + st.suppressedSoftCount + 1 := by
      unfold addIssue
      split_ifs
      all_goals simp
      all_goals omega
    show (List.foldl (addIssue susp) (addIssue susp st i) raw).issues.length +
        (List.foldl (addIssue susp) (addIssue susp st i) raw).suppressedSoftCount =
        st.issues.length + st.suppressedSoftCount + (i :: raw).length
    rw [h1]
    simp only [List.length_cons]
    omega

theorem hard_issue_pushed (susp : Nat) (raw : List Issue) (k : Nat) (i : Issue)
    (hk : raw.get? k = some i) (hH : i.severity = Severity.HARD) :
    i ∈ (raw.foldl (addIssue susp) initAdd).issues := by
  have hsplit : raw = raw.take (k + 1) ++ raw.drop (k + 1) :=
    (List.take_append_drop (k + 1) raw).symm
  have hmid : i ∈ ((raw.take (k + 1)).foldl (addIssue susp) initAdd).issues := by
    rw [List.take_succ, ← List.get?_eq_getElem?, hk]
    rw [List.foldl_append]
    show i ∈ (addIssue susp ((raw.take k).foldl (addIssue susp) initAdd) i).issues
    rw [addIssue_hard susp _ i hH]
    simp
  have hfold : raw.foldl (addIssue susp) initAdd =
      (raw.drop (k + 1)).foldl (addIssue susp)
        ((raw.take (k + 1)).foldl (addIssue susp) initAdd) := by
    conv_lhs => rw [hsplit]
    rw [List.foldl_append]
  have hsub : ((raw.take (k + 1)).foldl (addIssue susp) initAdd).issues ⊆
      (raw.foldl (addIssue susp) initAdd).issues := by
    rw [hfold]
    exact (foldl_issues_front susp _ _).sublist.subset
  exact hsub hmid

theorem suppressionNote_mem (issues : List Issue) (supp : Nat) (includeNotes : Bool)
    (h : 0 < supp) :
    suppressionNote supp ∈ reportLines issues supp includeNotes := by
  unfold reportLines
  rw [if_pos h]
  refine List.mem_append.mpr (Or.inl ?_)
  refine List.mem_append.mpr (Or.inr ?_)
  simp

/-- C6: cascade suppression in the Syntax/Context Checker.  Once a HARD issue
is recorded at line `L` (position `k` of the recorded-issue sequence), every
SOFT issue recorded later (position `j > k`) at a line `≤ L + susp` is
omitted from the reported issues but counted; every recorded issue is either
reported or counted; and when the count is positive the report contains the
`(Info) Καταστάλθηκαν N soft warning(s) ...` summary line and the detector
output is exactly those report lines joined. -/
theorem syntax_cascade_suppression (text : List Char) (susp : Nat)
    (includeNotes : Bool) (k j L lj : Nat)
    (hk : ((rawIssues text).get? k).map (fun i => (i.severity, i.lineNo)) =
      some (Severity.HARD, L))
    (hj : ((rawIssues text).get? j).map (fun i => (i.severity, i.lineNo)) =
      some (Severity.SOFT, lj))
    (hkj : k < j) (hline : lj ≤ L + susp) :
    (((rawIssues text).take (j + 1)).foldl (addIssue susp) initAdd).issues =
        (((rawIssues text).take j).foldl (addIssue susp) initAdd).issues ∧
      (((rawIssues text).take (j + 1)).foldl (addIssue susp) initAdd).suppressedSoftCount =
        (((rawIssues text).take j).foldl (addIssue susp) initAdd).suppressedSoftCount + 1 ∧
      ((rawIssues text).foldl (addIssue susp) initAdd).issues.length +
          ((rawIssues text).foldl (addIssue susp) initAdd).suppressedSoftCount =
        (rawIssues text).length ∧
      suppressionNote ((rawIssues text).foldl (addIssue susp) initAdd).suppressedSoftCount ∈
        reportLines ((rawIssues text).foldl (addIssue susp) initAdd).issues
          ((rawIssues text).foldl (addIssue susp) initAdd).suppressedSoftCount includeNotes ∧
      syntaxisErrorDetector text susp includeNotes =
        joinNl (reportLines ((rawIssues text).foldl (addIssue susp) initAdd).issues
          ((rawIssues text).foldl (addIssue susp) initAdd).suppressedSoftCount includeNotes) := by
  obtain ⟨ik, hgk, hksev, hkline⟩ :
      ∃ i, (rawIssues text).get? k = some i ∧
        i.severity = Severity.HARD ∧ i.lineNo = L := by
    cases hg : (rawIssues text).get? k with
    | none => rw [hg] at hk; exact absurd hk (by simp)
    | some i =>
      rw [hg] at hk
      simp only [Option.map_some', Option.some_inj, Prod.mk.injEq] at hk
      exact ⟨i, rfl, hk.1, hk.2⟩
  obtain ⟨ij, hgj, hjsev, hjline⟩ :
      ∃ i, (rawIssues text).get? j = some i ∧
        i.severity = Severity.SOFT ∧ i.lineNo = lj := by
    cases hg : (rawIssues text).get? j with
    | none => rw [hg] at hj; exact absurd hj (by simp)
    | some i =>
      rw [hg] at hj
      simp only [Option.map_some', Option.some_inj, Prod.mk.injEq] at hj
      exact ⟨i, rfl, hj.1, hj.2⟩
  have hmid : L + susp ≤
      (((rawIssues text).take (k + 1)).foldl (addIssue susp) initAdd).suppressSoftUntilLine := by
    rw [List.take_succ, ← List.get?_eq_getElem?, hgk]
    rw [List.foldl_append]
    show L + susp ≤ (addIssue susp (((rawIssues text).take k).foldl (addIssue susp) initAdd) ik).suppressSoftUntilLine
    rw [addIssue_hard susp _ ik hksev]
    rw [hkline]
    exact le_max_right _ _
  have hjuntil : L + susp ≤
      (((rawIssues text).take j).foldl (addIssue susp) initAdd).suppressSoftUntilLine := by
    have hsplit : (rawIssues text).take j =
        (rawIssues text).take (k + 1) ++
          (((rawIssues text).drop (k + 1)).take (j - (k + 1))) := by
      rw [← List.take_add]
      congr 1
      omega
    rw [hsplit, List.foldl_append]
    exact le_trans hmid (foldl_until_mono susp _ _)
  have hstep : ((rawIssues text).take (j + 1)).foldl (addIssue susp) initAdd =
      addIssue susp (((rawIssues text).take j).foldl (addIssue susp) initAdd) ij := by
    rw [List.take_succ, ← List.get?_eq_getElem?, hgj, List.foldl_append]
    rfl
  have hsupp := addIssue_soft_suppressed susp
    (((rawIssues text).take j).foldl (addIssue susp) initAdd) ij hjsev
    (by rw [hjline]; exact le_trans hline hjuntil)
  have ha1 : (((rawIssues text).take (j + 1)).foldl (addIssue susp) initAdd).issues =
      (((rawIssues text).take j).foldl (addIssue susp) initAdd).issues := by
    rw [hstep, hsupp]
  have ha2 : (((rawIssues text).take (j + 1)).foldl (addIssue susp) initAdd).suppressedSoftCount =
      (((rawIssues text).take j).foldl (addIssue susp) initAdd).suppressedSoftCount + 1 := by
    rw [hstep, hsupp]
  have hb : ((rawIssues text).foldl (addIssue susp) initAdd).issues.length +
      ((rawIssues text).foldl (addIssue susp) initAdd).suppressedSoftCount =
      (rawIssues text).length := by
    have := foldl_issue_count susp (rawIssues text) initAdd
    simpa [initAdd] using this
  have hcount : 0 < ((rawIssues text).foldl (addIssue susp) initAdd).suppressedSoftCount := by
    have h1 : 1 ≤ (((rawIssues text).take (j + 1)).foldl (addIssue susp) initAdd).suppressedSoftCount := by
      rw [ha2]
      exact Nat.le_add_left 1 _
    have hsplit : rawIssues text =
        (rawIssues text).take (j + 1) ++ (rawIssues text).drop (j + 1) :=
      (List.take_append_drop (j + 1) (rawIssues text)).symm
    calc 0 < (((rawIssues text).take (j + 1)).foldl (addIssue susp) initAdd).suppressedSoftCount := h1
      _ ≤ ((rawIssues text).foldl (addIssue susp) initAdd).suppressedSoftCount := by
          conv_rhs => rw [hsplit]
          rw [List.foldl_append]
          exact foldl_count_mono susp _ _
  have hne : ((rawIssues text).foldl (addIssue susp) initAdd).issues ≠ [] := by
    intro hnil
    have := hard_issue_pushed susp (rawIssues text) k ik hgk hksev
    rw [hnil] at this
    exact List.not_mem_nil ik this
  refine ⟨ha1, ha2, hb, suppressionNote_mem _ _ includeNotes hcount, ?_⟩
  unfold syntaxisErrorDetector
  rw [if_neg hne]

/-- Witness for C6: on `"CLASS\nCOLOR 1 2 3"` with the default window 25, the
HARD NESTING issue at line 1 (position 0) suppresses the SOFT CONTEXT issue
recorded at position 1; the suppressed count is reported in the summary
line. -/
theorem syntax_cascade_suppression_witness :
    (((rawIssues (("CLASS\nCOLOR 1 2 3").data)).take 2).foldl (addIssue 25) initAdd).issues =
        (((rawIssues (("CLASS\nCOLOR 1 2 3").data)).take 1).foldl (addIssue 25) initAdd).issues ∧
      (((rawIssues (("CLASS\nCOLOR 1 2 3").data)).take 2).foldl (addIssue 25) initAdd).suppressedSoftCount =
        (((rawIssues (("CLASS\nCOLOR 1 2 3").data)).take 1).foldl (addIssue 25) initAdd).suppressedSoftCount + 1 ∧
      ((rawIssues (("CLASS\nCOLOR 1 2 3").data)).foldl (addIssue 25) initAdd).issues.length +
          ((rawIssues (("CLASS\nCOLOR 1 2 3").data)).foldl (addIssue 25) initAdd).suppressedSoftCount =
        (rawIssues (("CLASS\nCOLOR 1 2 3").data)).length ∧
      suppressionNote ((rawIssues (("CLASS\nCOLOR 1 2 3").data)).foldl (addIssue 25) initAdd).suppressedSoftCount ∈
        reportLines ((rawIssues (("CLASS\nCOLOR 1 2 3").data)).foldl (addIssue 25) initAdd).issues
          ((rawIssues (("CLASS\nCOLOR 1 2 3").data)).foldl (addIssue 25) initAdd).suppressedSoftCount true ∧
      syntaxisErrorDetector (("CLASS\nCOLOR 1 2 3").data) 25 true =
        joinNl (reportLines ((rawIssues (("CLASS\nCOLOR 1 2 3").data)).foldl (addIssue 25) initAdd).issues
          ((rawIssues (("CLASS\nCOLOR 1 2 3").data)).foldl (addIssue 25) initAdd).suppressedSoftCount true) :=
  syntax_cascade_suppression (("CLASS\nCOLOR 1 2 3").data) 25 true 0 1 1 1
    (by decide) (by decide) (by decide) (by decide)

/-! ## Projection service (`ProjectionService`, client core).  The proj4
library is an external collaborator and is modelled as a function parameter
`p4`: `none` models an unavailable proj4 or a transform that threw (both make
`projectPoint` return its input unchanged).  JS numbers are modelled as `ℚ`. -/

/-- An extent `[minx, miny, maxx, maxy]`. -/
abbrev Extent := ℚ × ℚ × ℚ × ℚ

/-- The external proj4 transform. -/
abbrev ProjFn := List Char → List Char → ℚ × ℚ → Option (ℚ × ℚ)

/-- Embeds `ProjectionService.projectPoint`: normalize the CRS names to upper
case, return the point unchanged when either is empty or they are equal, or
when proj4 is unavailable / the transform throws. -/
def projectPoint (p4 : ProjFn) (fromCrs toCrs : List Char) (xy : ℚ × ℚ) : ℚ × ℚ :=
  let f := upper fromCrs
  let t := upper toCrs
  if f = [] ∨ t = [] ∨ f = t then xy
  else
    match p4 f t xy with
    | none => xy
    | some out => out

/-- Embeds `ProjectionService.projectExtent`: identity when the normalized
CRS names are empty or equal; otherwise project the four corners and take the
coordinate-wise min/max. -/
def projectExtent (p4 : ProjFn) (e : Extent) (fromCrs toCrs : List Char) : Extent :=
  let f := upper fromCrs
  let t := upper toCrs
  if f = [] ∨ t = [] ∨ f = t then e
  else
    let c1 := projectPoint p4 f t (e.1, e.2.1)
    let c2 := projectPoint p4 f t (e.1, e.2.2.2)
    let c3 := projectPoint p4 f t (e.2.2.1, e.2.1)
    let c4 := projectPoint p4 f t (e.2.2.1, e.2.2.2)
    (min (min (min c1.1 c2.1) c3.1) c4.1,
     min (min (min c1.2 c2.2) c3.2) c4.2,
     max (max (max c1.1 c2.1) c3.1) c4.1,
     max (max (max c1.2 c2.2) c3.2) c4.2)

/-! ## Extent synchronizer (`ExtentSyncService`, client core).  Index-bounded
scans are written with an explicit iteration-count parameter (`fuel`), always
supplied large enough by the wrapper; every loop of the source advances its
index by at least one per iteration. -/

/-- Zero-padded base-10 rendering of the `d`-digit fraction part. -/
def padDigits (d fp : Nat) : List Char :=
  let s := natChars fp
  List.replicate (d - s.length) '0' ++ s

/-- `Number.prototype.toFixed(d)` for a non-negative rational `m = p/q`:
round half away from zero to `d` decimals and render.  The rounded value
`⌊m·10^d + 1/2⌋ = ⌊(2·p·10^d + q) / (2·q)⌋` is computed directly on the
numerator and denominator so that concrete runs evaluate in the kernel. -/
def toFixedMag (m : ℚ) (d : Nat) : List Char :=
  let n : Nat :=
    (Int.fdiv (2 * m.num * ((10 ^ d : Nat) : Int) + (m.den : Int))
      (2 * (m.den : Int))).toNat
  if d = 0 then natChars (n / 10 ^ d)
  else natChars (n / 10 ^ d) ++ '.' :: padDigits d (n % 10 ^ d)

/-- `v.toFixed(d)` over the rational model of JS numbers. -/
def toFixedQ (v : ℚ) (d : Nat) : List Char :=
  if v < 0 then '-' :: toFixedMag (-v) d else toFixedMag v d

/-- Embeds `formatNum(v, crs)`: 6 decimals for the degree-based reference
systems, 3 otherwise (`Number.isFinite` always holds over `ℚ`). -/
def formatNum (v : ℚ) (crs : List Char) : List Char :=
  let code := upper crs
  let digits :=
    if code = ("EPSG:4326").data ∨ code = ("EPSG:4258").data ∨
        code = ("CRS:84").data then 6
    else 3
  toFixedQ v digits

/-- Embeds the service's `isComment` (regex `^\s*#`). -/
def extIsComment (line : List Char) : Bool :=
  decide ((line.dropWhile isWs).head? = some '#')

/-- Tests `^\s*KW\b` (flag `i`): the line's first word equals the keyword
case-insensitively (the following word-boundary makes the leading word run
have exactly the keyword's length). -/
def firstWordIs (kw : List Char) (line : List Char) : Bool :=
  decide (upper ((line.dropWhile isWs).takeWhile isWordChar) = kw)

/-- Source constant `BLOCK_STARTERS_RE`'s keyword alternatives. -/
def EXT_BLOCK_STARTERS : List (List Char) :=
  ["MAP".data, "LAYER".data, "CLASS".data, "STYLE".data, "LABEL".data,
   "WEB".data, "LEGEND".data, "SCALEBAR".data, "QUERYMAP".data,
   "REFERENCE".data, "GRID".data, "PROJECTION".data, "METADATA".data,
   "OUTPUTFORMAT".data, "SYMBOL".data, "FEATURE".data, "CLUSTER".data,
   "JOIN".data, "VALIDATION".data, "COMPOSITE".data, "UNION".data,
   "POINTS".data]

/-- Embeds `ExtentSyncService.isBlockStart`: a non-comment line whose first
word is a starter keyword and whose remainder (trimmed) is empty or a `#`
comment. -/
def isBlockStart (line : List Char) : Bool :=
  if extIsComment line then false
  else
    let t := line.dropWhile isWs
    let w := t.takeWhile isWordChar
    if upper w ∈ EXT_BLOCK_STARTERS then
      let rest := jsTrim (t.drop w.length)
      decide (rest = []) || decide (rest.head? = some '#')
    else false

/-- Embeds `findFirstBlockStart(lines, keyword)`. -/
def findFirstBlockStart (lines : List (List Char)) (kw : List Char) : Option Nat :=
  lines.findIdx? (fun l => !extIsComment l && firstWordIs kw l)

/-- Loop of `findBlockEnd`: walk forward from `i` keeping a depth counter;
return the index where the depth reaches 0, else the sentinel `start`. -/
def findBlockEndGo (lines : List (List Char)) (start : Nat) :
    Nat → Nat → Int → Nat
  | 0, _, _ => start
  | fuel + 1, i, depth =>
    if i < lines.length then
      let line := lines.getD i []
      if extIsComment line then findBlockEndGo lines start fuel (i + 1) depth
      else if firstWordIs (("END").data) line then
        if depth - 1 = 0 then i
        else findBlockEndGo lines start fuel (i + 1) (depth - 1)
      else if isBlockStart line then findBlockEndGo lines start fuel (i + 1) (depth + 1)
      else findBlockEndGo lines start fuel (i + 1) depth
    else start

/-- Embeds `findBlockEnd(lines, startLine)`. -/
def findBlockEnd (lines : List (List Char)) (startLine : Nat) : Nat :=
  findBlockEndGo lines startLine lines.length (startLine + 1) 1

/-- Downward loop of `findLastEndAfter`. -/
def findLastEndAfterGo (lines : List (List Char)) (startLine : Nat) : Nat → Nat
  | 0 => startLine
  | Nat.succ i =>
    if Nat.succ i ≤ startLine then startLine
    else
      let line := lines.getD (Nat.succ i) []
      if !extIsComment line && firstWordIs (("END").data) line then Nat.succ i
      else findLastEndAfterGo lines startLine i

/-- Embeds `findLastEndAfter(lines, startLine)`: the index of the last
non-comment line matching `^\s*END\b` after `startLine`, or the sentinel
`startLine`. -/
def findLastEndAfter (lines : List (List Char)) (startLine : Nat) : Nat :=
  findLastEndAfterGo lines startLine (lines.length - 1)

/-- Generic leftmost-match scan: try the matcher at every suffix, leftmost
first (regex `String.prototype.match` semantics for the patterns below). -/
def searchScan {α : Type} (f : List Char → Option α) : List Char → Option α
  | [] => none
  | c :: rest =>
    match f (c :: rest) with
    | some x => some x
    | none => searchScan f rest

/-- Matcher for `EPSG\s*:\s*(\d+)` (flag `i`) anchored at the given suffix. -/
def matchEpsgAt (s : List Char) : Option (List Char) :=
  if upper (s.take 4) = ("EPSG").data then
    let r := (s.drop 4).dropWhile isWs
    match r with
    | ':' :: r2 =>
      let ds := (r2.dropWhile isWs).takeWhile isAsciiDigit
      if ds ≠ [] then some ds else none
    | _ => none
  else none

/-- Matcher for `init\s*=\s*epsg\s*:\s*(\d+)` (flag `i`) anchored at the
given suffix. -/
def matchInitEpsgAt (s : List Char) : Option (List Char) :=
  if upper (s.take 4) = ("INIT").data then
    let r := (s.drop 4).dropWhile isWs
    match r with
    | '=' :: r2 =>
      let r3 := r2.dropWhile isWs
      if upper (r3.take 4) = ("EPSG").data then
        let r4 := (r3.drop 4).dropWhile isWs
        match r4 with
        | ':' :: r5 =>
          let ds := (r5.dropWhile isWs).takeWhile isAsciiDigit
          if ds ≠ [] then some ds else none
        | _ => none
      else none
    | _ => none
  else none

/-- Matcher for `srid\s*=\s*(\d+)` anchored at the given suffix (the `\b`
boundary before `srid` is handled by the scan below). -/
def matchSridAt (s : List Char) : Option (List Char) :=
  if upper (s.take 4) = ("SRID").data then
    let r := (s.drop 4).dropWhile isWs
    match r with
    | '=' :: r2 =>
      let ds := (r2.dropWhile isWs).takeWhile isAsciiDigit
      if ds ≠ [] then some ds else none
    | _ => none
  else none

/-- Scan for `\bsrid\s*=\s*(\d+)` (flag `i`): leftmost position preceded by a
non-word character (or the start). -/
def searchSridGo : Option Char → List Char → Option (List Char)
  | _, [] => none
  | prev, c :: rest =>
    let boundaryOk :=
      match prev with
      | none => true
      | some p => !isWordChar p
    if boundaryOk then
      match matchSridAt (c :: rest) with
      | some ds => some ds
      | none => searchSridGo (some c) rest
    else searchSridGo (some c) rest

/-- Decimal digits to a number (`Number(m[1])`). -/
def natOfDigits : List Char → Nat :=
  List.foldl (fun n c => n * 10 + (c.toNat - 48)) 0

/-- The text `lines.slice(start, end + 1).join('\n')` of a block. -/
def blockText (lines : List (List Char)) (start endIdx : Nat) : List Char :=
  joinNl ((lines.drop start).take (endIdx + 1 - start))

/-- Loop of `extractEpsgFromProjection` (scan `start + 1 ≤ i ≤ end` for the
first `PROJECTION` line; return its block's EPSG reference — or `none` —
unconditionally). -/
def extractEpsgProjGo (lines : List (List Char)) (endIdx : Nat) :
    Nat → Nat → Option (List Char)
  | 0, _ => none
  | fuel + 1, i =>
    if i ≤ endIdx then
      let line := lines.getD i []
      if extIsComment line then extractEpsgProjGo lines endIdx fuel (i + 1)
      else if !firstWordIs (("PROJECTION").data) line then
        extractEpsgProjGo lines endIdx fuel (i + 1)
      else
        let projEnd := findBlockEnd lines i
        let txt := blockText lines i projEnd
        match searchScan matchEpsgAt txt with
        | some ds => some ((("EPSG:").data) ++ ds)
        | none =>
          match searchScan matchInitEpsgAt txt with
          | some ds => some ((("EPSG:").data) ++ ds)
          | none => none
    else none

/-- Embeds `extractEpsgFromProjection(lines, start, end)`. -/
def extractEpsgFromProjection (lines : List (List Char)) (start endIdx : Nat) :
    Option (List Char) :=
  extractEpsgProjGo lines endIdx (endIdx + 2) (start + 1)

/-- Embeds `extractSrid(lines, start, end)`. -/
def extractSrid (lines : List (List Char)) (start endIdx : Nat) : Option Nat :=
  (searchSridGo none (blockText lines start endIdx)).map natOfDigits

/-- Matcher for `"key"\s*"([^"]+)"` (flag `i`) anchored at the given suffix. -/
def matchMetaKeyAt (key : List Char) (s : List Char) : Option (List Char) :=
  match s with
  | '"' :: r =>
    if upper (r.take key.length) = upper key ∧ (r.drop key.length).head? = some '"' then
      let r2 := ((r.drop key.length).tail).dropWhile isWs
      match r2 with
      | '"' :: r3 =>
        let v := r3.takeWhile (fun c => !decide (c = '"'))
        if v ≠ [] ∧ (r3.drop v.length).head? = some '"' then some v else none
      | _ => none
    else none
  | _ => none

/-- Embeds `extractEpsgFromMetadata(lines, start, end, key)`. -/
def extractEpsgFromMetadata (lines : List (List Char)) (start endIdx : Nat)
    (key : List Char) : Option (List Char) :=
  match searchScan (matchMetaKeyAt key) (blockText lines start endIdx) with
  | none => none
  | some v =>
    match searchScan matchEpsgAt (upper v) with
    | some ds => some ((("EPSG:").data) ++ ds)
    | none => none

/-- Embeds `extractCrsFromBlock(lines, start, end)`: `PROJECTION` block, then
`srid=`, then `wfs_srs` / `wms_srs` metadata. -/
def extractCrsFromBlock (lines : List (List Char)) (start endIdx : Nat) :
    Option (List Char) :=
  match extractEpsgFromProjection lines start endIdx with
  | some p => some p
  | none =>
    match extractSrid lines start endIdx with
    | some n => some ((("EPSG:").data) ++ natChars n)
    | none =>
      match extractEpsgFromMetadata lines start endIdx (("wfs_srs").data) with
      | some m => some m
      | none => extractEpsgFromMetadata lines start endIdx (("wms_srs").data)

/-- Loop of `extractFirstLayerCrs`. -/
def extractFirstLayerCrsGo (lines : List (List Char)) (mapEnd : Nat) :
    Nat → Nat → Option (List Char)
  | 0, _ => none
  | fuel + 1, i =>
    if i < mapEnd then
      let line := lines.getD i []
      if extIsComment line then extractFirstLayerCrsGo lines mapEnd fuel (i + 1)
      else if !firstWordIs (("LAYER").data) line then
        extractFirstLayerCrsGo lines mapEnd fuel (i + 1)
      else
        let layerEnd := findBlockEnd lines i
        if layerEnd ≤ i then extractFirstLayerCrsGo lines mapEnd fuel (i + 1)
        else extractCrsFromBlock lines i layerEnd
    else none

/-- Embeds `extractFirstLayerCrs(lines, mapStart, mapEnd)`. -/
def extractFirstLayerCrs (lines : List (List Char)) (mapStart mapEnd : Nat) :
    Option (List Char) :=
  extractFirstLayerCrsGo lines mapEnd (mapEnd + 1) (mapStart + 1)

/-- Matcher for the `NAME` value regex `^\s*NAME\s+"?([^"\s]+)"?` (flag `i`). -/
def matchNameValue (line : List Char) : Option (List Char) :=
  let t := line.dropWhile isWs
  if upper (t.take 4) = ("NAME").data then
    let r := t.drop 4
    match r.head? with
    | some c =>
      if isWs c then
        let r2 := r.dropWhile isWs
        let r3 := if r2.head? = some '"' then r2.tail else r2
        let v := r3.takeWhile (fun ch => !decide (ch = '"') && !isWs ch)
        if v ≠ [] then some v else none
      else none
    | none => none
  else none

/-- Loop of `extractLayerName` (depth-1 `NAME` directive inside the block;
present in the source for logging purposes). -/
def extractLayerNameGo (lines : List (List Char)) (endIdx : Nat) :
    Nat → Nat → Int → Option (List Char)
  | 0, _, _ => none
  | fuel + 1, i, depth =>
    if i < endIdx then
      let line := lines.getD i []
      if extIsComment line then extractLayerNameGo lines endIdx fuel (i + 1) depth
      else if firstWordIs (("END").data) line then
        extractLayerNameGo lines endIdx fuel (i + 1) (depth - 1)
      else if isBlockStart line then
        extractLayerNameGo lines endIdx fuel (i + 1) (depth + 1)
      else if depth = 1 ∧ firstWordIs (("NAME").data) line then matchNameValue line
      else extractLayerNameGo lines endIdx fuel (i + 1) depth
    else none

/-- Embeds `extractLayerName(lines, start, end)`. -/
def extractLayerName (lines : List (List Char)) (start endIdx : Nat) :
    Option (List Char) :=
  extractLayerNameGo lines endIdx (endIdx + 1) (start + 1) 1

/-- Loop of `guessInnerIndent`. -/
def guessInnerIndentGo (lines : List (List Char)) (endIdx : Nat) :
    Nat → Nat → Int → List Char
  | 0, _, _ => ("  ").data
  | fuel + 1, i, depth =>
    if i < endIdx then
      let line := lines.getD i []
      if extIsComment line || decide (jsTrim line = []) then
        guessInnerIndentGo lines endIdx fuel (i + 1) depth
      else if firstWordIs (("END").data) line then
        guessInnerIndentGo lines endIdx fuel (i + 1) (depth - 1)
      else if isBlockStart line then
        guessInnerIndentGo lines endIdx fuel (i + 1) (depth + 1)
      else if depth = 1 then
        let w := line.takeWhile isWs
        if w = [] then ("  ").data else w
      else guessInnerIndentGo lines endIdx fuel (i + 1) depth
    else ("  ").data

/-- Embeds `guessInnerIndent(lines, start, end)`. -/
def guessInnerIndent (lines : List (List Char)) (start endIdx : Nat) : List Char :=
  guessInnerIndentGo lines endIdx (endIdx + 1) (start + 1) 1

/-- The insertion strategy of `replaceOrInsertExtent` (`'map' | 'layer'`). -/
inductive InsertStrategy where
  | map
  | layer
deriving DecidableEq, Repr

/-- Replace-scan of `replaceOrInsertExtent`: find a depth-1 `EXTENT` line and
replace it; `none` when no such line exists. -/
def replaceExtentScan (lines : List (List Char)) (endIdx : Nat)
    (extentLine : List Char) : Nat → Nat → Int → Option (List (List Char))
  | 0, _, _ => none
  | fuel + 1, i, depth =>
    if i < endIdx then
      let line := lines.getD i []
      if extIsComment line then replaceExtentScan lines endIdx extentLine fuel (i + 1) depth
      else if firstWordIs (("END").data) line then
        replaceExtentScan lines endIdx extentLine fuel (i + 1) (depth - 1)
      else if isBlockStart line then
        replaceExtentScan lines endIdx extentLine fuel (i + 1) (depth + 1)
      else if depth = 1 ∧ firstWordIs (("EXTENT").data) line then
        some (lines.set i extentLine)
      else replaceExtentScan lines endIdx extentLine fuel (i + 1) depth
    else none

/-- First scan of `findInsertAfterLine`: a depth-1 `PROJECTION` line's block
end (the `PROJECTION` test precedes the block-start depth increment, as in
the source). -/
def insertAfterProjScan (lines : List (List Char)) (endIdx : Nat) :
    Nat → Nat → Int → Option Nat
  | 0, _, _ => none
  | fuel + 1, i, depth =>
    if i < endIdx then
      let line := lines.getD i []
      if extIsComment line then insertAfterProjScan lines endIdx fuel (i + 1) depth
      else if firstWordIs (("END").data) line then
        insertAfterProjScan lines endIdx fuel (i + 1) (depth - 1)
      else if depth = 1 ∧ firstWordIs (("PROJECTION").data) line then
        some (findBlockEnd lines i)
      else if isBlockStart line then
        insertAfterProjScan lines endIdx fuel (i + 1) (depth + 1)
      else insertAfterProjScan lines endIdx fuel (i + 1) depth
    else none

/-- Keyword scan of `findInsertAfterLine` (after `SIZE` for the map strategy,
after `NAME` for the layer strategy). -/
def insertAfterKwScan (lines : List (List Char)) (endIdx : Nat) (kw : List Char) :
    Nat → Nat → Int → Option Nat
  | 0, _, _ => none
  | fuel + 1, i, depth =>
    if i < endIdx then
      let line := lines.getD i []
      if extIsComment line then insertAfterKwScan lines endIdx kw fuel (i + 1) depth
      else if firstWordIs (("END").data) line then
        insertAfterKwScan lines endIdx kw fuel (i + 1) (depth - 1)
      else if isBlockStart line then
        insertAfterKwScan lines endIdx kw fuel (i + 1) (depth + 1)
      else if depth = 1 ∧ firstWordIs kw line then some i
      else insertAfterKwScan lines endIdx kw fuel (i + 1) depth
    else none

/-- Embeds `findInsertAfterLine(lines, start, end, strategy)`. -/
def findInsertAfterLine (lines : List (List Char)) (start endIdx : Nat)
    (strat : InsertStrategy) : Nat :=
  match insertAfterProjScan lines endIdx (endIdx + 1) (start + 1) 1 with
  | some r => r
  | none =>
    match strat with
    | InsertStrategy.map =>
      match insertAfterKwScan lines endIdx (("SIZE").data) (endIdx + 1) (start + 1) 1 with
      | some i => i
      | none => start
    | InsertStrategy.layer =>
      match insertAfterKwScan lines endIdx (("NAME").data) (endIdx + 1) (start + 1) 1 with
      | some i => i
      | none => start

/-- Embeds `replaceOrInsertExtent(lines, start, end, newExtent, crs, cfg)`:
replace the depth-1 `EXTENT` line or, when `addMissing`, insert a new one
after the preferred position (clamped into the block). -/
def replaceOrInsertExtent (lines : List (List Char)) (start endIdx : Nat)
    (e : Extent) (crs : List Char) (addMissing : Bool) (strat : InsertStrategy) :
    List (List Char) :=
  let indent := guessInnerIndent lines start endIdx
  let extentLine := indent ++ ("EXTENT ").data ++
    formatNum e.1 crs ++ (" ").data ++ formatNum e.2.1 crs ++ (" ").data ++
    formatNum e.2.2.1 crs ++ (" ").data ++ formatNum e.2.2.2 crs
  match replaceExtentScan lines endIdx extentLine (endIdx + 1) (start + 1) 1 with
  | some newLines => newLines
  | none =>
    if !addMissing then lines
    else
      let insertAfter := findInsertAfterLine lines start endIdx strat
      let safeAfter := min (max insertAfter start) (endIdx - 1)
      lines.insertIdx (safeAfter + 1) extentLine

/-- Embeds `formatExtentValue(e, crs)`. -/
def formatExtentValue (e : Extent) (crs : List Char) : List Char :=
  formatNum e.1 crs ++ (" ").data ++ formatNum e.2.1 crs ++ (" ").data ++
    formatNum e.2.2.1 crs ++ (" ").data ++ formatNum e.2.2.2 crs

/-- A parsed `METADATA` entry line (`parseMetadataEntryLine`'s result). -/
structure MetaEntry where
  indent : List Char
  key : List Char
  keyQuotedBy : Option Char
  valueQuotedBy : Option Char
  commentRaw : List Char
deriving DecidableEq, Repr

/-- Index of the first occurrence of the character `q`. -/
def indexOfChar (q : Char) : List Char → Option Nat
  | [] => none
  | c :: rest => if c = q then some 0 else (indexOfChar q rest).map (· + 1)

/-- Tests whether a suffix matches `\s*#.*$` (`.` cannot cross a line
terminator). -/
def commentSuffixOk (s : List Char) : Bool :=
  let r := s.dropWhile isWs
  decide (r.head? = some '#') && decide ('\r' ∉ r.tail)

/-- Embeds `rest.match(/(\s*#.*)$/)?.[1] || ''`: the leftmost suffix of
whitespace followed by a `#` comment running to the end of the line. -/
def findTrailingComment : List Char → List Char
  | [] => []
  | c :: rest =>
    if commentSuffixOk (c :: rest) then c :: rest
    else findTrailingComment rest

/-- Value-and-comment part of `parseMetadataEntryLine`. -/
def parseMetaValue (indent key : List Char) (keyQ : Option Char)
    (rest : List Char) : Option MetaEntry :=
  match rest with
  | [] => none
  | v0 :: r =>
    if v0 = '"' ∨ v0 = '\'' then
      match indexOfChar v0 r with
      | none => none
      | some idx =>
        let after := r.drop (idx + 1)
        some ⟨indent, key, keyQ, some v0, findTrailingComment after⟩
    else some ⟨indent, key, keyQ, none, findTrailingComment rest⟩

/-- Embeds `parseMetadataEntryLine(line)`. -/
def parseMetadataEntryLine (line : List Char) : Option MetaEntry :=
  let indent := line.takeWhile isWs
  let rest0 := line.drop indent.length
  let restTrim := rest0.dropWhile isWs
  if restTrim = [] ∨ restTrim.head? = some '#' then none
  else
    match restTrim with
    | [] => none
    | c :: r =>
      if c = '"' ∨ c = '\'' then
        match indexOfChar c r with
        | none => none
        | some idx =>
          let key := r.take idx
          let rest := (r.drop (idx + 1)).dropWhile isWs
          if rest = [] then none
          else parseMetaValue indent key (some c) rest
      else
        let m := restTrim.takeWhile isWordChar
        if m = [] then none
        else
          let rest := (restTrim.drop m.length).dropWhile isWs
          if rest = [] then none
          else parseMetaValue indent m none rest

/-- Embeds `renderMetadataEntryLine(parsed, value)`. -/
def renderMetadataEntryLine (p : MetaEntry) (value : List Char) : List Char :=
  let keyToken :=
    match p.keyQuotedBy with
    | some q => q :: p.key ++ [q]
    | none => p.key
  let valToken :=
    match p.valueQuotedBy with
    | some q => q :: value ++ [q]
    | none => value
  p.indent ++ keyToken ++ (" ").data ++ valToken ++ p.commentRaw

/-- Inner loop of `replaceMetadataExtentKeysInBlock` over one `METADATA`
block's lines. -/
def replMetaInner (metaEnd : Nat) (nextValue : List Char) :
    Nat → Nat → List (List Char) → List (List Char)
  | 0, _, lines => lines
  | fuel + 1, j, lines =>
    if j < metaEnd then
      let src := lines.getD j []
      if extIsComment src || decide (jsTrim src = []) then
        replMetaInner metaEnd nextValue fuel (j + 1) lines
      else
        match parseMetadataEntryLine src with
        | none => replMetaInner metaEnd nextValue fuel (j + 1) lines
        | some parsed =>
          if lower parsed.key = ("wms_extent").data ∨
              lower parsed.key = ("wfs_extent").data then
            let rendered := renderMetadataEntryLine parsed nextValue
            if rendered ≠ src then
              replMetaInner metaEnd nextValue fuel (j + 1) (lines.set j rendered)
            else replMetaInner metaEnd nextValue fuel (j + 1) lines
          else replMetaInner metaEnd nextValue fuel (j + 1) lines
    else lines

/-- Outer loop of `replaceMetadataExtentKeysInBlock` over the block's
`METADATA` sub-blocks. -/
def replMetaOuter (endIdx : Nat) (nextValue : List Char) :
    Nat → Nat → List (List Char) → List (List Char)
  | 0, _, lines => lines
  | fuel + 1, i, lines =>
    if i < endIdx then
      let line := lines.getD i []
      if extIsComment line then replMetaOuter endIdx nextValue fuel (i + 1) lines
      else if !firstWordIs (("METADATA").data) line then
        replMetaOuter endIdx nextValue fuel (i + 1) lines
      else
        let metaStart := i
        let metaEnd := findBlockEnd lines metaStart
        if metaEnd ≤ metaStart then replMetaOuter endIdx nextValue fuel (i + 1) lines
        else
          let lines2 := replMetaInner metaEnd nextValue metaEnd (metaStart + 1) lines
          replMetaOuter endIdx nextValue fuel (metaEnd + 1) lines2
    else lines

/-- Embeds `replaceMetadataExtentKeysInBlock(lines, start, end, newExtent, crs)`
(default keys `wms_extent` / `wfs_extent`; existing entries only). -/
def replaceMetadataExtentKeysInBlock (lines : List (List Char)) (start endIdx : Nat)
    (e : Extent) (crs : List Char) : List (List Char) :=
  replMetaOuter endIdx (formatExtentValue e crs) (endIdx + 1) (start + 1) lines

/-- Tests `mapfileText.includes('\r\n')`. -/
def containsCrlf : List Char → Bool
  | '\r' :: '\n' :: _ => true
  | _ :: rest => containsCrlf rest
  | [] => false

/-- Per-layer loop of `sync` (step 2): for each `LAYER` line before `mapEnd`,
rewrite its `EXTENT` and metadata extents in the layer's own reference
system, then jump past the layer's END. -/
def syncLayerLoop (p4 : ProjFn) (vp : Extent) (mapCrs : List Char) (mapEnd : Nat)
    (addMissing : Bool) : Nat → Nat → List (List Char) → List (List Char)
  | 0, _, lines => lines
  | fuel + 1, i, lines =>
    if i < mapEnd then
      let line := lines.getD i []
      if extIsComment line then syncLayerLoop p4 vp mapCrs mapEnd addMissing fuel (i + 1) lines
      else if !firstWordIs (("LAYER").data) line then
        syncLayerLoop p4 vp mapCrs mapEnd addMissing fuel (i + 1) lines
      else
        let layerStart := i
        let layerEnd := findBlockEnd lines layerStart
        if layerEnd ≤ layerStart then
          syncLayerLoop p4 vp mapCrs mapEnd addMissing fuel (i + 1) lines
        else
          let layerCrs := (extractCrsFromBlock lines layerStart layerEnd).getD mapCrs
          let layerExtent := projectExtent p4 vp (("CRS:84").data) layerCrs
          let lines2 := replaceOrInsertExtent lines layerStart layerEnd layerExtent
            layerCrs addMissing InsertStrategy.layer
          let lines3 := replaceMetadataExtentKeysInBlock lines2 layerStart layerEnd
            layerExtent layerCrs
          syncLayerLoop p4 vp mapCrs mapEnd addMissing fuel (layerEnd + 1) lines3
    else lines

/-- Embeds `ExtentSyncService.sync(mapfileText, viewportExtent4326, opts)`.
The three Booleans are the resolved option tests `opts.addMissing !== false`,
`opts.updateMap !== false`, `opts.updateLayers !== false`; the result is
`Except.error` exactly where the source throws. -/
def sync (p4 : ProjFn) (text : List Char) (vp : Extent)
    (addMissing updateMap updateLayers : Bool) : Except (List Char) (List Char) :=
  if jsTrim text = [] then Except.ok text
  else
    let nl := if containsCrlf text then ("\r\n").data else ("\n").data
    let lines := splitOnNl (normCrlf text)
    match findFirstBlockStart lines (("MAP").data) with
    | none => Except.ok text
    | some mapStart =>
      let mapEnd0 := findBlockEnd lines mapStart
      let mapEndE : Except (List Char) Nat :=
        if mapEnd0 ≤ mapStart then
          let fallback := findLastEndAfter lines mapStart
          if mapStart < fallback then Except.ok fallback
          else Except.error (("MAP block END not found").data)
        else Except.ok mapEnd0
      match mapEndE with
      | Except.error e => Except.error e
      | Except.ok mapEnd =>
        let mapCrsFromMap := extractCrsFromBlock lines mapStart mapEnd
        let mapCrsFromLayers :=
          match mapCrsFromMap with
          | some _ => none
          | none => extractFirstLayerCrs lines mapStart mapEnd
        let mapCrs := (mapCrsFromMap.orElse (fun _ => mapCrsFromLayers)).getD
          (("CRS:84").data)
        let lines1 :=
          if updateMap then
            let mapExtent := projectExtent p4 vp (("CRS:84").data) mapCrs
            let la := replaceOrInsertExtent lines mapStart mapEnd mapExtent mapCrs
              addMissing InsertStrategy.map
            replaceMetadataExtentKeysInBlock la mapStart mapEnd mapExtent mapCrs
          else lines
        let lines2 :=
          if updateLayers then
            syncLayerLoop p4 vp mapCrs mapEnd addMissing (mapEnd + 1) (mapStart + 1) lines1
          else lines1
        Except.ok (joinSep nl lines2)

/-! ## C4 / C5: extent synchronizer error handling and normalization -/

deriving instance DecidableEq for Except

/-- C4 is false as stated: when the `MAP` block's END cannot be located even
after the last-END fallback, `sync` does not return the text unchanged — it
throws `MAP block END not found` (modelled as `Except.error`). -/
theorem sync_throws_on_unfindable_map_end :
    sync (fun _ _ _ => none) (("MAP\nNAME x").data) (0, 0, 1, 1) true true true =
      Except.error (("MAP block END not found").data) := by decide

/-- C4 (amended): `sync` is a silent no-op — returning the original text —
when the input is blank or when no `MAP` line exists at all; but when a `MAP`
line exists and its END cannot be located even by the last-END fallback,
`sync` raises the error `MAP block END not found` instead of returning the
text unchanged. -/
theorem sync_unresolvable_map_span (p4 : ProjFn) (text : List Char) (vp : Extent)
    (addMissing updateMap updateLayers : Bool) :
    (jsTrim text = [] → sync p4 text vp addMissing updateMap updateLayers =
      Except.ok text) ∧
    (jsTrim text ≠ [] →
      findFirstBlockStart (splitOnNl (normCrlf text)) (("MAP").data) = none →
      sync p4 text vp addMissing updateMap updateLayers = Except.ok text) ∧
    (∀ ms, jsTrim text ≠ [] →
      findFirstBlockStart (splitOnNl (normCrlf text)) (("MAP").data) = some ms →
      findBlockEnd (splitOnNl (normCrlf text)) ms ≤ ms →
      findLastEndAfter (splitOnNl (normCrlf text)) ms ≤ ms →
      sync p4 text vp addMissing updateMap updateLayers =
        Except.error (("MAP block END not found").data)) := by
  refine ⟨?_, ?_, ?_⟩
  · intro h
    unfold sync
    rw [if_pos h]
  · intro h hnone
    simp only [sync]
    rw [if_neg h]
    simp only [hnone]
  · intro ms h hsome hend hfall
    simp only [sync]
    rw [if_neg h]
    simp only [hsome]
    rw [if_pos hend]
    rw [if_neg (by omega : ¬ ms < findLastEndAfter (splitOnNl (normCrlf text)) ms)]

/-- Witness for C4 (amended): a blank text is returned unchanged, a text
without a `MAP` line is returned unchanged, and `"MAP\nNAME x"` (a `MAP` line
with no `END` anywhere after it) makes `sync` throw. -/
theorem sync_unresolvable_map_span_witness :
    sync (fun _ _ _ => none) (("  ").data) (0, 0, 1, 1) true true true =
      Except.ok (("  ").data) ∧
    sync (fun _ _ _ => none) (("NAME x").data) (0, 0, 1, 1) true true true =
      Except.ok (("NAME x").data) ∧
    sync (fun _ _ _ => none) (("MAP\nNAME x").data) (0, 0, 1, 1) true true true =
      Except.error (("MAP block END not found").data) :=
  ⟨(sync_unresolvable_map_span (fun _ _ _ => none) (("  ").data) (0, 0, 1, 1)
      true true true).1 (by decide),
   (sync_unresolvable_map_span (fun _ _ _ => none) (("NAME x").data) (0, 0, 1, 1)
      true true true).2.1 (by decide) (by decide),
   (sync_unresolvable_map_span (fun _ _ _ => none) (("MAP\nNAME x").data) (0, 0, 1, 1)
      true true true).2.2 0 (by decide) (by decide) (by decide) (by decide)⟩

/-- C5 is false as stated: with the disordered viewport extent
`(10, 0, 5, 1)` and a mapfile whose block reference system resolves to the
viewport's own `CRS:84`, reprojection short-circuits to the identity and
`sync` emits the EXTENT line `EXTENT 10.000000 0.000000 5.000000 1.000000`
with `minx = 10 > 5 = maxx`. -/
theorem sync_emits_disordered_extent :
    sync (fun _ _ _ => none) (("MAP\nEND").data) (10, 0, 5, 1) true true true =
      Except.ok (("MAP\n  EXTENT 10.000000 0.000000 5.000000 1.000000\nEND").data) ∧
    ¬((10 : ℚ) ≤ 5) := by
  constructor
  · decide
  · norm_num

/-- C5 (amended): whenever reprojection actually runs — the normalized source
and target reference systems are nonempty and different — `projectExtent`
(and hence every EXTENT value `sync` derives from it) is normalized:
`minx ≤ maxx` and `miny ≤ maxy`.  When the two reference systems coincide,
the viewport extent is passed through unchanged, so a disordered input is
emitted disordered. -/
theorem projectExtent_normalizes (p4 : ProjFn) (e : Extent) (fromCrs toCrs : List Char)
    (hf : upper fromCrs ≠ []) (ht : upper toCrs ≠ [])
    (hne : upper fromCrs ≠ upper toCrs) :
    (projectExtent p4 e fromCrs toCrs).1 ≤ (projectExtent p4 e fromCrs toCrs).2.2.1 ∧
    (projectExtent p4 e fromCrs toCrs).2.1 ≤ (projectExtent p4 e fromCrs toCrs).2.2.2 := by
  unfold projectExtent
  rw [if_neg (by tauto : ¬(upper fromCrs = [] ∨ upper toCrs = [] ∨
    upper fromCrs = upper toCrs))]
  constructor
  · exact le_trans (min_le_right _ _) (le_max_right _ _)
  · exact le_trans (min_le_right _ _) (le_max_right _ _)

/-- Witness for C5 (amended): projecting the disordered extent
`(10, 0, 5, 1)` from `CRS:84` to `EPSG:2100` (with an identity transform)
yields an ordered extent. -/
theorem projectExtent_normalizes_witness :
    (projectExtent (fun _ _ p => some p) (10, 0, 5, 1) (("CRS:84").data)
        (("EPSG:2100").data)).1 ≤
      (projectExtent (fun _ _ p => some p) (10, 0, 5, 1) (("CRS:84").data)
        (("EPSG:2100").data)).2.2.1 ∧
    (projectExtent (fun _ _ p => some p) (10, 0, 5, 1) (("CRS:84").data)
        (("EPSG:2100").data)).2.1 ≤
      (projectExtent (fun _ _ p => some p) (10, 0, 5, 1) (("CRS:84").data)
        (("EPSG:2100").data)).2.2.2 :=
  projectExtent_normalizes (fun _ _ p => some p) (10, 0, 5, 1) (("CRS:84").data)
    (("EPSG:2100").data) (by decide) (by decide) (by decide)

/-! ## C2: non-opener exclusion across the four stack consumers -/

/-- C2 is false as stated: the line `STYLE HILITE` — a block keyword followed
by an argument — increases the stack depth of the balance detector (`analyze`
reports `STYLE` as a missing END at EOF) and of the syntax checker (`synStep`
pushes a `STYLE` frame on top of the `ROOT` sentinel), because both push
whenever the line's first word token is a known opener keyword, arguments or
not. -/
theorem nonopener_increases_detector_depth :
    (analyze (("STYLE HILITE").data)).missingEnds = [⟨("STYLE").data, 1, 1⟩] ∧
    (synStep synInit 1 (("STYLE HILITE").data)).stack.length =
      synInit.stack.length + 1 := by
  constructor
  · decide
  · decide

/-- C2 (amended): non-opener exclusion holds only for the formatter and the
extent synchronizer — for them a keyword line with arguments (`STYLE HILITE`,
`PATTERN 10 10`) never pushes and a bare keyword line pushes, except that the
extent synchronizer's starter list omits `PATTERN`, so bare `PATTERN` pushes
only in the formatter.  The balance detector and the syntax checker instead
push on any line whose first word token is one of their opener keywords, even
with arguments: `STYLE HILITE` pushes in both, `PATTERN 10 10` pushes in the
balance detector (the checker's block list also omits `PATTERN`, so neither
`PATTERN` form pushes there). -/
theorem nonopener_exclusion_per_consumer (ind : List Char)
    (stack : List (List Char)) (fr : List Frame) (ee : List ExtraEnd)
    (sf : List SynFrame) (rs : List Issue) (n : Nat) :
    ((formatStepT ind stack (("STYLE HILITE").data)).2 = stack ∧
     (formatStepT ind stack (("PATTERN 10 10").data)).2 = stack ∧
     (formatStepT ind stack (("STYLE").data)).2 = ("STYLE").data :: stack ∧
     (formatStepT ind stack (("PATTERN").data)).2 = ("PATTERN").data :: stack) ∧
    (isBlockStart (("STYLE HILITE").data) = false ∧
     isBlockStart (("PATTERN 10 10").data) = false ∧
     isBlockStart (("STYLE").data) = true ∧
     isBlockStart (("PATTERN").data) = false) ∧
    ((anStep ⟨fr, ee, cleanLex⟩ n (("STYLE HILITE").data)).stack =
       ⟨("STYLE").data, n, 1⟩ :: fr ∧
     (anStep ⟨fr, ee, cleanLex⟩ n (("PATTERN 10 10").data)).stack =
       ⟨("PATTERN").data, n, 1⟩ :: fr) ∧
    ((synStep ⟨sf, rs, cleanLex⟩ n (("STYLE HILITE").data)).stack =
       ⟨("STYLE").data, n, 1⟩ :: sf ∧
     (synStep ⟨[⟨("LAYER").data, 1, 1⟩, ⟨("ROOT").data, 0, 0⟩], rs, cleanLex⟩ n
        (("PATTERN 10 10").data)).stack =
       [⟨("LAYER").data, 1, 1⟩, ⟨("ROOT").data, 0, 0⟩] ∧
     (synStep ⟨[⟨("LAYER").data, 1, 1⟩, ⟨("ROOT").data, 0, 0⟩], rs, cleanLex⟩ n
        (("PATTERN").data)).stack =
       [⟨("LAYER").data, 1, 1⟩, ⟨("ROOT").data, 0, 0⟩]) := by
  refine ⟨⟨rfl, rfl, rfl, rfl⟩, ⟨by decide, by decide, by decide, by decide⟩,
    ⟨rfl, rfl⟩, ⟨rfl, rfl, rfl⟩⟩

/-! ## WFS-capability classifier (wfsSupport.js, save-as-dialog component) -/

/-- A JS object with string keys, as an insertion-ordered association list;
`objSet` overwrites in place on an existing key and appends otherwise,
matching JS property assignment and `Object.entries` iteration order. -/
def objSet {α : Type} : List (List Char × α) → List Char → α → List (List Char × α)
  | [], k, v => [(k, v)]
  | (k', v') :: rest, k, v =>
    if k' = k then (k', v) :: rest else (k', v') :: objSet rest k v

/-- JS property read `obj[k]` (`undefined` becomes `none`). -/
def objGet {α : Type} : List (List Char × α) → List Char → Option α
  | [], _ => none
  | (k', v') :: rest, k => if k' = k then some v' else objGet rest k

/-- JS `s.includes(needle)` on strings. -/
def listContains (needle : List Char) : List Char → Bool
  | [] => needle.isEmpty
  | c :: rest => needle.isPrefixOf (c :: rest) || listContains needle rest

/-- Embeds `stripComments(line)`: drop everything from the first `#` that is
not inside double quotes (the quote flag toggles before the `#` test). -/
def stripCommentsGo (inQuote : Bool) : List Char → List Char
  | [] => []
  | c :: rest =>
    let q := if c = '"' then !inQuote else inQuote
    if !q && c = '#' then [] else c :: stripCommentsGo q rest

/-- `stripComments` entry point. -/
def stripComments (line : List Char) : List Char := stripCommentsGo false line

/-- Embeds `firstTokenUpper(line)` (regex `^\s*([A-Za-z_][A-Za-z0-9_]*)\b`):
the uppercased first word of the line, or `none` when the line does not start
(after whitespace) with a letter or underscore. -/
def firstTokenUpper (line : List Char) : Option (List Char) :=
  match line.dropWhile isWs with
  | [] => none
  | c :: rest =>
    if isAsciiLetter c || c = '_' then
      some (upper ((c :: rest).takeWhile isWordChar))
    else none

/-- Quote stripping of `parseDirectiveValue`: `v.slice(1, -1)` when `v`
starts and ends with `"` and has length at least 2. -/
def unquoteValue (v : List Char) : List Char :=
  if v.head? = some '"' ∧ v.getLast? = some '"' ∧ 2 ≤ v.length then
    v.tail.dropLast
  else v

/-- Embeds `parseDirectiveValue(line, keyUpper)` (regex
`^\s*KEY\s+(.+?)\s*$`, flag `i`): after optional leading whitespace the key
must appear case-insensitively followed by at least one whitespace character;
the captured value is the remainder without surrounding whitespace (the lazy
group still matches a single whitespace character when the remainder is all
whitespace of length ≥ 2, which trims to the empty value), then surrounding
double quotes are stripped. -/
def parseDirectiveValue (line : List Char) (keyUpper : List Char) :
    Option (List Char) :=
  let t := line.dropWhile isWs
  if upper (t.take keyUpper.length) = keyUpper then
    let r := t.drop keyUpper.length
    match r.head? with
    | none => none
    | some c =>
      if isWs c then
        let v := r.dropWhile isWs
        if v ≠ [] then some (unquoteValue (trimRight v))
        else if 2 ≤ r.length then some (unquoteValue []) else none
      else none
  else none

/-- Scan of `/"([^"]*)"/g`: outside quotes a `"` opens a run, inside quotes a
`"` completes the captured content; an unterminated final quote captures
nothing. -/
def quotedRunsGo : Option (List Char) → List Char → List (List Char)
  | _, [] => []
  | none, c :: rest =>
    if c = '"' then quotedRunsGo (some []) rest else quotedRunsGo none rest
  | some acc, c :: rest =>
    if c = '"' then acc :: quotedRunsGo none rest
    else quotedRunsGo (some (acc ++ [c])) rest

/-- All capture groups of `/"([^"]*)"/g` over the line, left to right: the
contents of each completed pair of double quotes. -/
def quotedRuns (line : List Char) : List (List Char) := quotedRunsGo none line

/-- Scan splitting on whitespace runs; `acc` is the word being read. -/
def splitWsGo (acc : List Char) : List Char → List (List Char)
  | [] => if acc.isEmpty then [] else [acc]
  | c :: rest =>
    if isWs c then
      if acc.isEmpty then splitWsGo [] rest else acc :: splitWsGo [] rest
    else splitWsGo (acc ++ [c]) rest

/-- The tokens of `line.trim().split(/\s+/)` on an already trimmed line:
the maximal runs of non-whitespace characters. -/
def splitWsRuns (l : List Char) : List (List Char) := splitWsGo [] l

/-- `replace(/^"+|"+$/g, '')`: strip every leading and trailing `"`. -/
def stripQuoteEnds (v : List Char) : List Char :=
  ((v.dropWhile (fun c => c = '"')).reverse.dropWhile (fun c => c = '"')).reverse

/-- Embeds `parseMetadataKV(line)`: two completed quoted runs give the
key/value pair directly; otherwise the line is split on whitespace and the
first token (quotes stripped) is the key, the rest of the trimmed line
(quotes stripped) the value, both required non-empty. -/
def parseMetadataKV (line : List Char) : Option (List Char × List Char) :=
  let quoted := quotedRuns line
  if 2 ≤ quoted.length then some (quoted.getD 0 [], quoted.getD 1 [])
  else
    let parts := splitWsRuns (jsTrim line)
    if 2 ≤ parts.length then
      let key := stripQuoteEnds (parts.getD 0 [])
      let rest := jsTrim ((jsTrim line).drop (parts.getD 0 []).length)
      let value := stripQuoteEnds rest
      if key ≠ [] ∧ value ≠ [] then some (key, value) else none
    else none

/-- Embeds `normalizeMeta(meta)`: rebuild the object with lowercased keys in
insertion order. -/
def normalizeMeta (meta : List (List Char × List Char)) :
    List (List Char × List Char) :=
  meta.foldl (fun out kv => objSet out (lower kv.1) kv.2) []

/-- Embeds `valueIncludesGetFeature(v)`. -/
def valueIncludesGetFeature (v : List Char) : Bool :=
  let s := lower v
  listContains (("getfeature").data) s || listContains (("*").data) s ||
    listContains (("all").data) s

/-- Embeds `valueLooksDisabled(v)`. -/
def valueLooksDisabled (v : List Char) : Bool :=
  let s := lower (jsTrim v)
  decide (s = [] ∨ s = ("none").data ∨ s = ("0").data ∨ s = ("false").data ∨
    s = ("off").data)

/-- Embeds `hasAny(metaLower, keys)`: some key is present with a value whose
trim is non-empty. -/
def hasAny (metaLower : List (List Char × List Char))
    (keys : List (List Char)) : Bool :=
  keys.any (fun k =>
    match objGet metaLower k with
    | some v => decide (jsTrim v ≠ [])
    | none => false)

/-- The accumulator of `getWfsSupportMap` for the current `LAYER`. -/
structure WfsLayer where
  name : Option (List Char)
  type : Option (List Char)
  metadata : List (List Char × List Char)
deriving DecidableEq, Repr

/-- A per-layer verdict `{ supported, reasons }`. -/
structure WfsVerdict where
  supported : Bool
  reasons : List (List Char)
deriving DecidableEq, Repr

/-- The enable-flag resolution chain of `computeWfsSupportForLayer`:
`layer.wfs_enable_request`, then `layer.ows_enable_request`, then
`web.wfs_enable_request`, then `web.ows_enable_request`; the result carries
`(enableKey, enableVal, enableScope)`. -/
def resolveEnable (lm wm : List (List Char × List Char)) :
    Option (List Char × List Char × List Char) :=
  match objGet lm (("wfs_enable_request").data) with
  | some v => some ((("wfs_enable_request").data, v, ("layer").data))
  | none =>
    match objGet lm (("ows_enable_request").data) with
    | some v => some ((("ows_enable_request").data, v, ("layer").data))
    | none =>
      match objGet wm (("wfs_enable_request").data) with
      | some v => some ((("wfs_enable_request").data, v, ("web").data))
      | none =>
        match objGet wm (("ows_enable_request").data) with
        | some v => some ((("ows_enable_request").data, v, ("web").data))
        | none => none

/-- Embeds `computeWfsSupportForLayer(layer, layerMetaLower, webMetaLower)`. -/
def computeWfsSupportForLayer (layer : WfsLayer)
    (layerMetaLower webMetaLower : List (List Char × List Char)) : WfsVerdict :=
  let typeUpper := upper (layer.type.getD [])
  if typeUpper = ("RASTER").data then
    ⟨false, [("TYPE=RASTER (WFS is vector-only)").data]⟩
  else
    match resolveEnable layerMetaLower webMetaLower with
    | none =>
      ⟨false,
       [("missing enable metadata (wfs_enable_request / ows_enable_request)").data]⟩
    | some (enableKey, enableVal, enableScope) =>
      let reasons := [enableKey ++ ("=").data ++ enableVal ++
        (" (scope=").data ++ enableScope ++ (")").data]
      if valueLooksDisabled enableVal || !valueIncludesGetFeature enableVal then
        ⟨false, reasons ++ [("enable metadata does not allow GetFeature").data]⟩
      else
        let hasTitle := hasAny layerMetaLower [("wfs_title").data, ("ows_title").data]
        let hasSrs := hasAny layerMetaLower [("wfs_srs").data, ("ows_srs").data]
        if !hasTitle || !hasSrs then
          ⟨false, reasons ++
            ((if !hasTitle then [("missing wfs_title/ows_title").data] else []) ++
             (if !hasSrs then [("missing wfs_srs/ows_srs").data] else []))⟩
        else ⟨true, reasons ++ [("has basic WFS metadata (title + srs)").data]⟩

/-- The specification's wording of the WFS verdict (§4.8), written
independently of the code: rules applied in order, short-circuiting —
(1) `TYPE=RASTER` is unsupported; (2) an enable flag is resolved in priority
order `layer.wfs_enable_request`, `layer.ows_enable_request`,
`web.wfs_enable_request`, `web.ows_enable_request`, absence is unsupported;
(3) a disabled-looking value (`''`, `none`, `0`, `false`, `off`) or one not
textually including `getfeature`, `*`, or `all` is unsupported; (4) a
missing layer-local title (`wfs_title`/`ows_title`) or SRS
(`wfs_srs`/`ows_srs`) is unsupported; otherwise supported. -/
def wfsSupportedSpec (layer : WfsLayer)
    (lm wm : List (List Char × List Char)) : Bool :=
  if upper (layer.type.getD []) = ("RASTER").data then false
  else
    let enable :=
      match objGet lm (("wfs_enable_request").data) with
      | some v => some v
      | none =>
        match objGet lm (("ows_enable_request").data) with
        | some v => some v
        | none =>
          match objGet wm (("wfs_enable_request").data) with
          | some v => some v
          | none => objGet wm (("ows_enable_request").data)
    match enable with
    | none => false
    | some v =>
      if lower (jsTrim v) = [] ∨ lower (jsTrim v) = ("none").data ∨
          lower (jsTrim v) = ("0").data ∨ lower (jsTrim v) = ("false").data ∨
          lower (jsTrim v) = ("off").data then false
      else if !(listContains (("getfeature").data) (lower v) ||
          listContains (("*").data) (lower v) ||
          listContains (("all").data) (lower v)) then false
      else if !hasAny lm [("wfs_title").data, ("ows_title").data] then false
      else if !hasAny lm [("wfs_srs").data, ("ows_srs").data] then false
      else true

theorem wfsTail_eq (v : List Char) (lm : List (List Char × List Char))
    (rs : List (List Char)) :
    (if valueLooksDisabled v || !valueIncludesGetFeature v then
        (⟨false, rs ++ [("enable metadata does not allow GetFeature").data]⟩ :
          WfsVerdict)
      else if !hasAny lm [("wfs_title").data, ("ows_title").data] ||
          !hasAny lm [("wfs_srs").data, ("ows_srs").data] then
        ⟨false, rs ++
          ((if !hasAny lm [("wfs_title").data, ("ows_title").data] then
              [("missing wfs_title/ows_title").data] else []) ++
           (if !hasAny lm [("wfs_srs").data, ("ows_srs").data] then
              [("missing wfs_srs/ows_srs").data] else []))⟩
      else ⟨true, rs ++ [("has basic WFS metadata (title + srs)").data]⟩).supported =
    (if lower (jsTrim v) = [] ∨ lower (jsTrim v) = ("none").data ∨
        lower (jsTrim v) = ("0").data ∨ lower (jsTrim v) = ("false").data ∨
        lower (jsTrim v) = ("off").data then false
      else if !(listContains (("getfeature").data) (lower v) ||
          listContains (("*").data) (lower v) ||
          listContains (("all").data) (lower v)) then false
      else if !hasAny lm [("wfs_title").data, ("ows_title").data] then false
      else if !hasAny lm [("wfs_srs").data, ("ows_srs").data] then false
      else true) := by
  by_cases hd : lower (jsTrim v) = [] ∨ lower (jsTrim v) = ("none").data ∨
      lower (jsTrim v) = ("0").data ∨ lower (jsTrim v) = ("false").data ∨
      lower (jsTrim v) = ("off").data
  · have hvd : valueLooksDisabled v = true := decide_eq_true hd
    rw [hvd, Bool.true_or, if_pos hd]
    rfl
  · have hvd : valueLooksDisabled v = false := decide_eq_false hd
    have hic : (listContains (("getfeature").data) (lower v) ||
        listContains (("*").data) (lower v) ||
        listContains (("all").data) (lower v)) = valueIncludesGetFeature v := rfl
    rw [hvd, Bool.false_or, if_neg hd, hic]
    cases hi : valueIncludesGetFeature v with
    | false => rfl
    | true =>
      cases hT : hasAny lm [("wfs_title").data, ("ows_title").data] <;>
        cases hS : hasAny lm [("wfs_srs").data, ("ows_srs").data] <;> rfl

/-- C7: the classifier's verdict agrees with the specification's strict rule
order for every layer and every pair of (lowercased) layer-local and web
metadata objects: RASTER short-circuits to unsupported, then the enable flag
is resolved layer-first, then its value is vetted, then layer-local title
and SRS are required. -/
theorem computeWfsSupport_matches_spec (layer : WfsLayer)
    (lm wm : List (List Char × List Char)) :
    (computeWfsSupportForLayer layer lm wm).supported =
      wfsSupportedSpec layer lm wm := by
  unfold computeWfsSupportForLayer wfsSupportedSpec resolveEnable
  by_cases ht : upper (layer.type.getD []) = ("RASTER").data
  · rw [if_pos ht, if_pos ht]
  · rw [if_neg ht, if_neg ht]
    cases h1 : objGet lm (("wfs_enable_request").data) with
    | some v => exact wfsTail_eq v lm _
    | none =>
      cases h2 : objGet lm (("ows_enable_request").data) with
      | some v => exact wfsTail_eq v lm _
      | none =>
        cases h3 : objGet wm (("wfs_enable_request").data) with
        | some v => exact wfsTail_eq v lm _
        | none =>
          cases h4 : objGet wm (("ows_enable_request").data) with
          | some v => exact wfsTail_eq v lm _
          | none => rfl

/-! ## C10: `getWfsSupportMap` walk -/

/-- Source constant `BLOCK_START` of `getWfsSupportMap`. -/
def WFS_BLOCK_START : List (List Char) :=
  ["MAP".data, "LAYER".data, "WEB".data, "METADATA".data, "PROJECTION".data,
   "CLASS".data, "STYLE".data, "LABEL".data, "FEATURE".data, "JOIN".data,
   "CLUSTER".data, "OUTPUTFORMAT".data, "LEGEND".data, "REFERENCE".data,
   "QUERYMAP".data, "SCALEBAR".data, "SYMBOL".data]

/-- The per-line preprocessing of `getWfsSupportMap`:
`stripComments(rawLine).trim()`. -/
def cleanWfsLine (raw : List Char) : List Char := jsTrim (stripComments raw)

/-- The walk state of `getWfsSupportMap`: the result object, the map-level
`WEB`/`METADATA` accumulator, the block stack (top at head) and the current
`LAYER` accumulator. -/
structure WfsScanState where
  supportMap : List (List Char × WfsVerdict)
  webMetadata : List (List Char × List Char)
  stack : List (List Char)
  currentLayer : Option WfsLayer
deriving DecidableEq, Repr

/-- One line of `getWfsSupportMap`'s walk. -/
def wfsStep (s : WfsScanState) (raw : List Char) : WfsScanState :=
  let line := cleanWfsLine raw
  if line = [] then s
  else
    let tok := firstTokenUpper line
    if tok = some (("END").data) then
      let popped := s.stack.head?
      let s1 : WfsScanState := { s with stack := s.stack.tail }
      if popped = some (("LAYER").data) then
        match s.currentLayer with
        | some cl =>
          match cl.name with
          | some nm =>
            if nm ≠ [] then
              { s1 with
                supportMap := objSet s.supportMap nm
                  (computeWfsSupportForLayer cl (normalizeMeta cl.metadata)
                    (normalizeMeta s.webMetadata)),
                currentLayer := none }
            else { s1 with currentLayer := none }
          | none => { s1 with currentLayer := none }
        | none => s1
      else s1
    else if (match tok with
             | some t => decide (t ∈ WFS_BLOCK_START)
             | none => false) then
      { s with stack := tok.getD [] :: s.stack,
               currentLayer :=
                 if tok = some (("LAYER").data) then some ⟨none, none, []⟩
                 else s.currentLayer }
    else
      let inMetadata := s.stack.head? = some (("METADATA").data)
      let inWeb := (("WEB").data) ∈ s.stack
      let inLayer := (("LAYER").data) ∈ s.stack
      if inMetadata ∧ inWeb ∧ ¬inLayer then
        match parseMetadataKV line with
        | some kv =>
          if kv.1 ≠ [] then
            { s with webMetadata := objSet s.webMetadata kv.1 kv.2 }
          else s
        | none => s
      else
        match s.currentLayer with
        | none => s
        | some cl =>
          if s.stack.head? = some (("LAYER").data) then
            let cl1 :=
              match parseDirectiveValue line (("NAME").data) with
              | some vv => { cl with name := some vv }
              | none => cl
            let cl2 :=
              match parseDirectiveValue line (("TYPE").data) with
              | some vv => { cl1 with type := some vv }
              | none => cl1
            { s with currentLayer := some cl2 }
          else if inMetadata ∧ inLayer then
            match parseMetadataKV line with
            | some kv =>
              if kv.1 ≠ [] then
                let cl2 : WfsLayer := { cl with metadata := objSet cl.metadata kv.1 kv.2 }
                { s with currentLayer := some cl2 }
              else s
            | none => s
          else s

/-- Embeds `getWfsSupportMap(mapfileText)`: fold the walk over the
`/\r?\n/`-split lines and return the per-layer verdict object. -/
def getWfsSupportMap (text : List Char) : List (List Char × WfsVerdict) :=
  ((splitLinesCRLF text).foldl wfsStep ⟨[], [], [], none⟩).supportMap

/-- The walk state just before (0-based) line `i` of the text. -/
def wfsStateAt (text : List Char) (i : Nat) : WfsScanState :=
  ((splitLinesCRLF text).take i).foldl wfsStep ⟨[], [], [], none⟩

theorem objGet_objSet_isSome {α : Type} (m : List (List Char × α))
    (k q : List Char) (v : α) :
    (objGet (objSet m k v) q).isSome = true ↔
      (q = k ∨ (objGet m q).isSome = true) := by
  induction m with
  | nil =>
    by_cases h : q = k
    · subst h; simp [objSet, objGet]
    · simp only [objSet, objGet]
      rw [if_neg (fun hh => h hh.symm)]
      simp [h]
  | cons p rest ih =>
    obtain ⟨k', v'⟩ := p
    by_cases h : k' = k
    · subst h
      by_cases h2 : k' = q
      · subst h2
        simp [objSet, objGet]
      · simp only [objSet, if_pos rfl, objGet, if_neg h2]
        constructor
        · exact Or.inr
        · rintro (rfl | hh)
          · exact absurd rfl h2
          · exact hh
    · by_cases h2 : k' = q
      · subst h2
        simp [objSet, objGet, h]
      · simp only [objSet]
        rw [if_neg h]
        simp only [objGet]
        rw [if_neg h2, if_neg h2]
        exact ih

theorem wfsStep_supportMap (s : WfsScanState) (raw : List Char) :
    (wfsStep s raw).supportMap = s.supportMap ∨
    ∃ cl nm, firstTokenUpper (cleanWfsLine raw) = some (("END").data) ∧
      s.stack.head? = some (("LAYER").data) ∧
      s.currentLayer = some cl ∧ cl.name = some nm ∧ nm ≠ [] ∧
      (wfsStep s raw).supportMap = objSet s.supportMap nm
        (computeWfsSupportForLayer cl (normalizeMeta cl.metadata)
          (normalizeMeta s.webMetadata)) := by
  simp only [wfsStep]
  repeat' (first | (left; rfl) | split)
  all_goals
    right
    exact ⟨_, _, by assumption, by assumption, by assumption, by assumption,
      by assumption, rfl⟩

theorem foldl_supportMap_mem (ls : List (List Char)) (s : WfsScanState)
    (n : List Char)
    (h : (objGet (ls.foldl wfsStep s).supportMap n).isSome = true) :
    (objGet s.supportMap n).isSome = true ∨
    ∃ i cl, i < ls.length ∧
      firstTokenUpper (cleanWfsLine (ls.getD i [])) = some (("END").data) ∧
      ((ls.take i).foldl wfsStep s).stack.head? = some (("LAYER").data) ∧
      ((ls.take i).foldl wfsStep s).currentLayer = some cl ∧
      cl.name = some n ∧ n ≠ [] := by
  induction ls generalizing s with
  | nil => left; exact h
  | cons l ls ih =>
    have h' : (objGet ((ls.foldl wfsStep (wfsStep s l)).supportMap) n).isSome =
        true := h
    rcases ih (wfsStep s l) h' with hbase | ⟨i, cl, hi, ha, hb, hc, hd, he⟩
    · rcases wfsStep_supportMap s l with heq | ⟨cl, nm, ha, hb, hc, hd, hne, heq⟩
      · left
        rw [heq] at hbase
        exact hbase
      · rw [heq, objGet_objSet_isSome] at hbase
        rcases hbase with rfl | hbase2
        · right
          exact ⟨0, cl, Nat.succ_pos ls.length, ha, hb, hc, hd, hne⟩
        · left
          exact hbase2
    · right
      exact ⟨i + 1, cl, Nat.succ_lt_succ hi, ha, hb, hc, hd, he⟩

/-- C10: an entry of the WFS support map exists for a layer name only when
some line of the text is an `END` line that closes a `LAYER` frame (the stack
top at that line is `LAYER`) while the current-layer accumulator carries that
(non-empty) `NAME`; a `LAYER` without a `NAME`, or one never closed before
EOF, contributes no entry, since the verdict is computed only at this point. -/
theorem getWfsSupportMap_only_named_closed_layers (text n : List Char)
    (h : (objGet (getWfsSupportMap text) n).isSome = true) :
    ∃ i cl, i < (splitLinesCRLF text).length ∧
      firstTokenUpper (cleanWfsLine ((splitLinesCRLF text).getD i [])) =
        some (("END").data) ∧
      (wfsStateAt text i).stack.head? = some (("LAYER").data) ∧
      (wfsStateAt text i).currentLayer = some cl ∧
      cl.name = some n ∧ n ≠ [] := by
  rcases foldl_supportMap_mem (splitLinesCRLF text) ⟨[], [], [], none⟩ n h with
    hbase | hex
  · simp [objGet] at hbase
  · exact hex

/-- Witness for C10: on `LAYER\nNAME "a"\nEND` the map has an entry for `a`,
so line 2 (0-based) is an `END` closing the named `LAYER`. -/
theorem getWfsSupportMap_only_named_closed_layers_witness :
    (objGet (getWfsSupportMap (("LAYER\nNAME \"a\"\nEND").data))
        (("a").data)).isSome = true ∧
    (∃ i cl, i < (splitLinesCRLF (("LAYER\nNAME \"a\"\nEND").data)).length ∧
      firstTokenUpper (cleanWfsLine
          ((splitLinesCRLF (("LAYER\nNAME \"a\"\nEND").data)).getD i [])) =
        some (("END").data) ∧
      (wfsStateAt (("LAYER\nNAME \"a\"\nEND").data) i).stack.head? =
        some (("LAYER").data) ∧
      (wfsStateAt (("LAYER\nNAME \"a\"\nEND").data) i).currentLayer = some cl ∧
      cl.name = some (("a").data) ∧ (("a").data) ≠ []) :=
  ⟨by decide,
   getWfsSupportMap_only_named_closed_layers (("LAYER\nNAME \"a\"\nEND").data)
     (("a").data) (by decide)⟩
